import Mathlib

/-!
Verification of the bookmark-manager core: a shallow embedding of the
tree model, the tree algorithms (src/utils/bookmarkUtils), the analytics
passes, the duplicate-resolver scan, the import parser (worker code in
src/AppContext.tsx), the reducer transitions and the oracle-gating
of the async handlers, together with proofs and refutations of the
specification's claims about them.

Conventions of the embedding:
- JavaScript objects become structures; the `BookmarkNode` union becomes
  the inductive `BNode`.
- JavaScript `Set<string>` payloads are modelled as `List String` with
  membership lookup (`has` = `contains`); insertion-ordered `Map`s are
  modelled as association lists updated in place.
- `Array.prototype.sort(cmp)` (stable since ES2019) is modelled as the
  stable `List.insertionSort` over the relation `cmp a b ≤ 0`.
- Strings are modelled over their character lists; `toLowerCase` /
  `toUpperCase` are modelled on the ASCII range, which covers every
  character class the source's regular expressions distinguish.
- Timestamps: `Date.now()` becomes an explicit `now : Int` parameter
  (milliseconds); the parser's random node ids become a deterministic
  counter supply (only their uniqueness matters, and no claim here
  depends on id values).
-/

/-- A bookmark node's fields (identity fields plus the bookmark extras). -/
structure Bookmark where
  id : String
  title : String
  url : String
  addDate : Option String
  icon : Option String
  searchText : Option String
deriving DecidableEq, Repr

/-- A folder node's own fields (children are carried by the tree constructor). -/
structure FolderInfo where
  id : String
  title : String
  addDate : Option String
  childStats : Option (Nat × Nat)
deriving DecidableEq, Repr

mutual

/-- The `BookmarkNode` tagged union: a bookmark leaf or a folder with ordered
children.  The children sequence is the mutually defined `BNodes` (an
isomorphic copy of a list) so that every traversal below is structurally
recursive and evaluates inside the kernel. -/
inductive BNode where
  | bm (b : Bookmark)
  | folder (f : FolderInfo) (children : BNodes)

/-- An ordered sequence of nodes (a folder's `children` array). -/
inductive BNodes where
  | nil
  | cons (head : BNode) (tail : BNodes)

end

mutual

/-- Decidable equality of nodes (the automatic derivation does not handle
the mutual occurrence). -/
def BNode.decEq : (a b : BNode) → Decidable (a = b)
  | .bm a, .bm b =>
      if h : a = b then .isTrue (by rw [h]) else .isFalse (by intro hc; cases hc; exact h rfl)
  | .bm _, .folder _ _ => .isFalse (by intro h; cases h)
  | .folder _ _, .bm _ => .isFalse (by intro h; cases h)
  | .folder f ch, .folder g dh =>
      if hf : f = g then
        match BNodes.decEq ch dh with
        | .isTrue hc => .isTrue (by rw [hf, hc])
        | .isFalse hc => .isFalse (by intro h; cases h; exact hc rfl)
      else .isFalse (by intro h; cases h; exact hf rfl)

/-- Decidable equality of node sequences. -/
def BNodes.decEq : (a b : BNodes) → Decidable (a = b)
  | .nil, .nil => .isTrue rfl
  | .nil, .cons _ _ => .isFalse (by intro h; cases h)
  | .cons _ _, .nil => .isFalse (by intro h; cases h)
  | .cons x xs, .cons y ys =>
      match BNode.decEq x y, BNodes.decEq xs ys with
      | .isTrue h1, .isTrue h2 => .isTrue (by rw [h1, h2])
      | .isFalse h1, _ => .isFalse (by intro h; cases h; exact h1 rfl)
      | _, .isFalse h2 => .isFalse (by intro h; cases h; exact h2 rfl)

end

instance : DecidableEq BNode := BNode.decEq

instance : DecidableEq BNodes := BNodes.decEq

/-- Sequence append (used for the parser's `children.push`). -/
def BNodes.append : BNodes → BNodes → BNodes
  | .nil, l => l
  | .cons x xs, l => .cons x (BNodes.append xs l)

/-- `children.push(n)`: append one node at the end. -/
def BNodes.push (l : BNodes) (n : BNode) : BNodes :=
  BNodes.append l (.cons n .nil)

/-- Sequence length (`children.length`). -/
def BNodes.length : BNodes → Nat
  | .nil => 0
  | .cons _ xs => BNodes.length xs + 1

/-- The last element, when any (`children[children.length - 1]`). -/
def BNodes.getLast? : BNodes → Option BNode
  | .nil => none
  | .cons x .nil => some x
  | .cons _ (.cons y ys) => BNodes.getLast? (.cons y ys)

/-- All but the last element. -/
def BNodes.dropLast : BNodes → BNodes
  | .nil => .nil
  | .cons _ .nil => .nil
  | .cons x (.cons y ys) => .cons x (BNodes.dropLast (.cons y ys))

/-- Build a node sequence from a Lean list literal. -/
def BNodes.ofList : List BNode → BNodes
  | [] => .nil
  | n :: rest => .cons n (BNodes.ofList rest)

/-- `flattenBookmarks` (bookmarkUtils): depth-first bookmark list; folders are
traversed, never emitted. -/
def flattenBookmarks : BNodes → List Bookmark
  | .nil => []
  | .cons (.bm b) rest => b :: flattenBookmarks rest
  | .cons (.folder _ ch) rest => flattenBookmarks ch ++ flattenBookmarks rest

/-- `removeBookmarksByIds` (bookmarkUtils): drops bookmarks whose id is in the
set; folders are kept (even when listed) and rebuilt with filtered children. -/
def removeBookmarksByIds : BNodes → List String → BNodes
  | .nil, _ => .nil
  | .cons (.bm b) rest, ids =>
      if ids.contains b.id then removeBookmarksByIds rest ids
      else .cons (.bm b) (removeBookmarksByIds rest ids)
  | .cons (.folder f ch) rest, ids =>
      .cons (.folder f (removeBookmarksByIds ch ids)) (removeBookmarksByIds rest ids)

/-- `removeEmptyFolders` (bookmarkUtils): post-order rebuild keeping a folder
only when its recursively cleaned children are non-empty; bookmarks always kept. -/
def removeEmptyFolders : BNodes → BNodes
  | .nil => .nil
  | .cons (.bm b) rest => .cons (.bm b) (removeEmptyFolders rest)
  | .cons (.folder f ch) rest =>
      let cleaned := removeEmptyFolders ch
      if cleaned.length > 0 then .cons (.folder f cleaned) (removeEmptyFolders rest)
      else removeEmptyFolders rest

/-- The depth-first list of folder ids of a tree (used to state that an
operation removes no folder). -/
def folderIds : BNodes → List String
  | .nil => []
  | .cons (.bm _) rest => folderIds rest
  | .cons (.folder f ch) rest => f.id :: (folderIds ch ++ folderIds rest)

/-- `removeFoldersByIds` (bookmarkUtils): the value the call RETURNS —
matched folders are skipped and counted, retained folders get the cleaned
children, bookmarks pass through. -/
def removeFoldersByIds : BNodes → List String → BNodes × Nat
  | .nil, _ => (.nil, 0)
  | .cons (.bm b) rest, ids =>
      let r := removeFoldersByIds rest ids
      (.cons (.bm b) r.1, r.2)
  | .cons (.folder f ch) rest, ids =>
      if ids.contains f.id then
        let r := removeFoldersByIds rest ids
        (r.1, r.2 + 1)
      else
        let rc := removeFoldersByIds ch ids
        let r := removeFoldersByIds rest ids
        (.cons (.folder f rc.1) r.1, rc.2 + r.2)

/-- The value of `removeFoldersByIds`'s INPUT list after the call, under
JavaScript reference semantics: the source executes
`node.children = result.cleanedBookmarks` on every retained folder, so a
retained folder's children are overwritten in place with the cleaned list,
while skipped folders (matched ids) are never recursed into and bookmarks
are untouched. -/
def removeFoldersByIdsPost : BNodes → List String → BNodes
  | .nil, _ => .nil
  | .cons (.bm b) rest, ids => .cons (.bm b) (removeFoldersByIdsPost rest ids)
  | .cons (.folder f ch) rest, ids =>
      if ids.contains f.id then .cons (.folder f ch) (removeFoldersByIdsPost rest ids)
      else .cons (.folder f (removeFoldersByIds ch ids).1) (removeFoldersByIdsPost rest ids)

/-! ### Models of the JavaScript primitives the source relies on -/

/-- The ASCII whitespace characters of the JS `\s` class / `trim` (the
Unicode members never occur in the inputs considered here). -/
def isJsWs (c : Char) : Bool :=
  c = ' ' || c = '\t' || c = '\n' || c = '\r' || c = '\x0b' || c = '\x0c'

/-- ASCII model of `String.prototype.toLowerCase` on one character. -/
def jsLowerChar (c : Char) : Char :=
  if 'A' ≤ c && c ≤ 'Z' then Char.ofNat (c.toNat + 32) else c

/-- Case-insensitive character comparison (ASCII). -/
def charCI (a b : Char) : Bool := jsLowerChar a = jsLowerChar b

/-- Case-insensitive prefix test on character lists. -/
def startsWithCI : List Char → List Char → Bool
  | [], _ => true
  | _ :: _, [] => false
  | p :: ps, c :: cs => charCI p c && startsWithCI ps cs

/-- Exact (case-sensitive) prefix test on character lists, as in
`String.prototype.startsWith`. -/
def startsWithList : List Char → List Char → Bool
  | [], _ => true
  | _ :: _, [] => false
  | p :: ps, c :: cs => p = c && startsWithList ps cs

/-- `String.prototype.trim` (ASCII whitespace model). -/
def jsTrimList (cs : List Char) : List Char :=
  ((cs.dropWhile isJsWs).reverse.dropWhile isJsWs).reverse

/-- `String.prototype.trim` on strings. -/
def jsTrim (s : String) : String := String.mk (jsTrimList s.toList)

def isDigitChar (c : Char) : Bool := '0' ≤ c && c ≤ '9'

def digitsToNat (ds : List Char) : Nat :=
  ds.foldl (fun acc c => acc * 10 + (c.toNat - '0'.toNat)) 0

def isHexChar (c : Char) : Bool :=
  isDigitChar c || ('a' ≤ c && c ≤ 'f') || ('A' ≤ c && c ≤ 'F')

def hexDigitVal (c : Char) : Nat :=
  if isDigitChar c then c.toNat - '0'.toNat
  else if 'a' ≤ c && c ≤ 'f' then c.toNat - 'a'.toNat + 10
  else c.toNat - 'A'.toNat + 10

def hexToNat (ds : List Char) : Nat :=
  ds.foldl (fun acc c => acc * 16 + hexDigitVal c) 0

/-- The unsigned part of `parseInt` (radix auto-detection: a `0x`/`0X`
prefix switches to base 16); `none` models `NaN` (no digit consumed). -/
def jsParseIntNat (cs : List Char) : Option Nat :=
  match cs with
  | '0' :: 'x' :: rest =>
      let ds := rest.takeWhile isHexChar
      if ds.isEmpty then none else some (hexToNat ds)
  | '0' :: 'X' :: rest =>
      let ds := rest.takeWhile isHexChar
      if ds.isEmpty then none else some (hexToNat ds)
  | _ =>
      let ds := cs.takeWhile isDigitChar
      if ds.isEmpty then none else some (digitsToNat ds)

/-- `parseInt(s)` (no explicit radix): skip leading whitespace, optional
sign, then the longest digit prefix; `none` models `NaN`. -/
def jsParseInt (s : String) : Option Int :=
  match s.toList.dropWhile isJsWs with
  | '-' :: rest => (jsParseIntNat rest).map (fun n => -(n : Int))
  | '+' :: rest => (jsParseIntNat rest).map (fun n => (n : Int))
  | cs => (jsParseIntNat cs).map (fun n => (n : Int))

/-- `Array.prototype.sort(cmp)` for an integer-valued comparator inducing a
total preorder: sorting is stable (guaranteed since ES2019), and any stable
sort realises it, so the stable `List.insertionSort` over `cmp a b ≤ 0` is
the value-level model. -/
def jsSortOnInt (cmp : α → α → Int) (l : List α) : List α :=
  l.insertionSort (fun a b => cmp a b ≤ 0)

/-- `Set.prototype.add` on the insertion-ordered list model of `Set<string>`. -/
def jsSetAdd (l : List String) (x : String) : List String :=
  if l.contains x then l else l ++ [x]

/-- `Set.prototype.delete` on the list model (sets built by `jsSetAdd` hold
no duplicate, so erasing the first occurrence removes the entry). -/
def jsSetDelete (l : List String) (x : String) : List String := l.erase x

/-- `new Set(xs).size`: the number of distinct entries. -/
def jsSetSize (l : List String) : Int := (l.eraseDups).length

/-! ### Analytics: `analyzeBookmarkAges` (src/utils/bookmarkUtils) -/

def oneMonthMs : Int := 30 * 24 * 60 * 60 * 1000
def sixMonthsMs : Int := 6 * oneMonthMs
def oneYearMs : Int := 12 * oneMonthMs
def twoYearsMs : Int := 2 * oneYearMs
def fiveYearsMs : Int := 5 * oneYearMs

/-- The millisecond timestamp `new Date(parseInt(bm.addDate) * 1000)` when it
is a valid date: `none` when `addDate` is absent or empty (falsy), fails to
parse (`NaN`), or the scaled value leaves the ECMAScript time-value range. -/
def dateTimeMs (bm : Bookmark) : Option Int :=
  match bm.addDate with
  | none => none
  | some s =>
      if s = "" then none
      else match jsParseInt s with
        | none => none
        | some v =>
            let ms := v * 1000
            if ms.natAbs ≤ 8640000000000000 then some ms else none

/-- The if/else chain of `analyzeBookmarkAges` assigning an age (ms) to a band label. -/
def ageBandLabel (age : Int) : String :=
  if age > fiveYearsMs then "Over 5 years old"
  else if age > twoYearsMs then "2-5 years old"
  else if age > oneYearMs then "1-2 years old"
  else if age > sixMonthsMs then "6-12 months old"
  else if age > oneMonthMs then "1-6 months old"
  else "Less than 1 month old"

/-- The six accumulation lists of `ageGroups`, in the object's key order. -/
structure AgeAcc where
  over5 : List String
  y2to5 : List String
  y1to2 : List String
  m6to12 : List String
  m1to6 : List String
  lt1m : List String

/-- One iteration of the `analyzeBookmarkAges` loop. -/
def ageStep (now : Int) (acc : AgeAcc) (bm : Bookmark) : AgeAcc :=
  match dateTimeMs bm with
  | none => acc
  | some t =>
      let age := now - t
      if age > fiveYearsMs then { acc with over5 := acc.over5 ++ [bm.id] }
      else if age > twoYearsMs then { acc with y2to5 := acc.y2to5 ++ [bm.id] }
      else if age > oneYearMs then { acc with y1to2 := acc.y1to2 ++ [bm.id] }
      else if age > sixMonthsMs then { acc with m6to12 := acc.m6to12 ++ [bm.id] }
      else if age > oneMonthMs then { acc with m1to6 := acc.m1to6 ++ [bm.id] }
      else { acc with lt1m := acc.lt1m ++ [bm.id] }

/-- `analyzeBookmarkAges` (with `Date.now()` made the explicit `now`):
bucket every valid-dated bookmark, then emit the bands in declaration
order, omitting empty ones.  Entries carry the pushed `{id}` payloads. -/
def analyzeBookmarkAges (now : Int) (bms : List Bookmark) : List (String × List String) :=
  let acc := bms.foldl (ageStep now) ⟨[], [], [], [], [], []⟩
  ([("Over 5 years old", acc.over5), ("2-5 years old", acc.y2to5),
    ("1-2 years old", acc.y1to2), ("6-12 months old", acc.m6to12),
    ("1-6 months old", acc.m1to6), ("Less than 1 month old", acc.lt1m)]).filter
    (fun g => g.2.length > 0)

/-- The code's age bands as an ordered (lower bound, label) table, for the
first-match characterisation. -/
def ageBands : List (Int × String) :=
  [(fiveYearsMs, "Over 5 years old"), (twoYearsMs, "2-5 years old"),
   (oneYearMs, "1-2 years old"), (sixMonthsMs, "6-12 months old"),
   (oneMonthMs, "1-6 months old")]

/-- First band (in priority order) whose lower bound the age exceeds. -/
def firstBand (bands : List (Int × String)) (age : Int) : String :=
  match bands.find? (fun p => age > p.1) with
  | some p => p.2
  | none => "Less than 1 month old"

/-- The age-band lower bounds asserted by the specification (in days:
1825, 730, 365, 182.5, 30), converted to milliseconds.  This definition
follows the spec's words, not the source, and exists to be compared with
the source's thresholds. -/
def specAgeBands : List (Int × String) :=
  [(157680000000, "Over 5 years old"), (63072000000, "2-5 years old"),
   (31536000000, "1-2 years old"), (15768000000, "6-12 months old"),
   (2592000000, "1-6 months old")]

/-! ### Analytics: `analyzeTitleKeywords` (src/utils/bookmarkUtils) -/

/-- The fixed `STOP_WORDS` set of the source, in declaration order. -/
def STOP_WORDS : List String :=
  ["a", "an", "the", "and", "or", "but", "is", "are", "was", "were", "in", "on",
   "at", "to", "for", "of", "with", "by", "from", "up", "about", "into", "over",
   "after", "how", "new", "top", "best", "guide", "tutorial", "pdf", "video",
   "watch", "login", "sign", "home", "page", "site", "website", "com", "org",
   "net", "www", "https", "http", "free", "download", "online", "your", "my",
   "me", "it", "that", "this", "get", "use", "what", "why", "when", "official",
   "profile", "google", "search", "docs", "bookmarks", "recipes", "recipe"]

/-- The JS `\w` class: `[A-Za-z0-9_]`. -/
def isWordChar (c : Char) : Bool :=
  ('a' ≤ c && c ≤ 'z') || ('A' ≤ c && c ≤ 'Z') || isDigitChar c || c = '_'

mutual

/-- Segment accumulation for `split(/\s+/)`: `cur` holds the pending
segment reversed; a whitespace character closes it. -/
def splitWsGo : List Char → List Char → List (List Char)
  | cur, [] => [cur.reverse]
  | cur, c :: rest =>
      if isJsWs c then cur.reverse :: splitWsSkip rest else splitWsGo (c :: cur) rest

/-- Skipping the remainder of a whitespace run in `split(/\s+/)`; at the end
of input this emits the (empty) trailing segment, as the JS split does. -/
def splitWsSkip : List Char → List (List Char)
  | [] => [[]]
  | c :: rest => if isJsWs c then splitWsSkip rest else splitWsGo [c] rest

end

/-- `title.toLowerCase().replace(/[^\w\s]/g, '').split(/\s+/)`. -/
def tokenizeTitle (t : String) : List String :=
  let cs := (t.toList.map jsLowerChar).filter (fun c => isWordChar c || isJsWs c)
  (splitWsGo [] cs).map String.mk

/-- `/^\d+$/.test w`. -/
def isAllDigits (w : String) : Bool :=
  !(w.toList.isEmpty) && w.toList.all isDigitChar

/-- The filter guarding insertion into `keywordCounts`:
`word.length > 2 && !STOP_WORDS.has(word) && !/^\d+$/.test(word)`. -/
def keywordOk (w : String) : Bool :=
  decide (w.length > 2) && !(STOP_WORDS.contains w) && !(isAllDigits w)

/-- `keywordCounts.set(word, (get ?? 0) + 1)` on the insertion-ordered map
(association-list) model: bump in place or append a fresh entry. -/
def bumpWord (m : List (String × Nat)) (w : String) : List (String × Nat) :=
  if m.any (fun kv => kv.1 = w) then
    m.map (fun kv => if kv.1 = w then (kv.1, kv.2 + 1) else kv)
  else m ++ [(w, 1)]

/-- The accumulated keyword-count map of `analyzeTitleKeywords` over all
titles, in first-encounter order. -/
def keywordCounts (bms : List Bookmark) : List (String × Nat) :=
  bms.foldl
    (fun m bm =>
      (tokenizeTitle bm.title).foldl
        (fun m w => if keywordOk w then bumpWord m w else m) m)
    []

/-- `analyzeTitleKeywords`: count, sort by descending count (stable), keep
the top 30 — entries are (keyword, count) pairs. -/
def analyzeTitleKeywords (bms : List Bookmark) : List (String × Nat) :=
  (jsSortOnInt (fun a b => (b.2 : Int) - (a.2 : Int)) (keywordCounts bms)).take 30

/-! ### Duplicate resolver: `performSmartScan` (src/components/DuplicateManagerView) -/

/-- One `(bookmark, path)` entry of a duplicate set. -/
structure DupItem where
  bookmark : Bookmark
  path : String
deriving DecidableEq, Repr

/-- A duplicate set: the shared URL and its entries. -/
structure DupSet where
  url : String
  items : List DupItem
deriving DecidableEq, Repr

/-- `(s).split('/').length`: for a single-character separator the JS split
yields (number of separator occurrences) + 1 segments, counting empty ones
(so the empty string yields 1). -/
def jsSplitCount (sep : Char) (s : String) : Nat :=
  s.toList.count sep + 1

/-- `parseInt(bm.addDate || '0')`: an absent or empty `addDate` is falsy and
falls back to the string "0". -/
def addDateNumVal (bm : Bookmark) : Option Int :=
  match bm.addDate with
  | none => jsParseInt "0"
  | some s => if s = "" then jsParseInt "0" else jsParseInt s

/-- The smart-scan comparator: shorter `split('/')` path length first, then
newer (larger) parsed `addDate`.  A `NaN` comparator value is returned as
`+0` (equal), as ECMAScript's `SortCompare` prescribes. -/
def smartCmp (a b : DupItem) : Int :=
  let pa : Int := jsSplitCount '/' a.path
  let pb : Int := jsSplitCount '/' b.path
  if pa ≠ pb then pa - pb
  else
    match addDateNumVal b.bookmark, addDateNumVal a.bookmark with
    | some db, some da => db - da
    | _, _ => 0

/-- The recommendation step of `performSmartScan` for one duplicate group:
a dead URL selects every member; otherwise the group is stably sorted by
`smartCmp`, the best entry's id is deselected and all remaining entries are
selected.  `probeOk url = false` models the `fetch` rejecting, i.e. the
health map holding `'dead'`.  (A group with no item would make the source
throw on `sorted[0]`; duplicate groups always hold at least two entries.) -/
def scanGroup (probeOk : String → Bool) (sel : List String) (g : DupSet) : List String :=
  if probeOk g.url then
    match jsSortOnInt smartCmp g.items with
    | [] => sel
    | best :: rest =>
        (rest.map (fun it => it.bookmark.id)).foldl jsSetAdd
          (jsSetDelete sel best.bookmark.id)
  else
    (g.items.map (fun it => it.bookmark.id)).foldl jsSetAdd sel

/-- The selection produced by `performSmartScan`'s recommendation loop,
starting from the previously selected ids. -/
def performSmartScanSelect (probeOk : String → Bool) (dups : List DupSet)
    (init : List String) : List String :=
  dups.foldl (scanGroup probeOk) init

/-- Occurrences of the breadcrumb separator " / " in a path. -/
def countSepRuns : List Char → Nat
  | ' ' :: '/' :: ' ' :: rest => countSepRuns rest + 1
  | _ :: rest => countSepRuns rest
  | [] => 0

/-- The number of breadcrumb ancestor segments as the specification counts
them: a root-level bookmark (empty path string) has 0 segments; otherwise
the segments are the ' / '-joined ancestor titles.  This definition follows
the spec's words ("fewer ancestor segments — a root-level bookmark has 0
segments"), not the source, and exists to be compared with the source's
path-length measure. -/
def specAncestorSegments (path : String) : Nat :=
  if path = "" then 0 else countSepRuns path.toList + 1

/-! ### `findDuplicates` (src/utils/bookmarkUtils) -/

/-- `urlMap.get(url).push(bm)` on the insertion-ordered map model. -/
def pushUrl (m : List (String × List Bookmark)) (bm : Bookmark) : List (String × List Bookmark) :=
  if m.any (fun kv => kv.1 = bm.url) then
    m.map (fun kv => if kv.1 = bm.url then (kv.1, kv.2 ++ [bm]) else kv)
  else m ++ [(bm.url, [bm])]

/-- The url → bookmarks map built by `findDuplicates` (bookmarks with a
falsy — empty — url are skipped). -/
def urlGroups (bms : List Bookmark) : List (String × List Bookmark) :=
  bms.foldl (fun m bm => if bm.url = "" then m else pushUrl m bm) []

/-- `findDuplicates`: only URLs with at least two occurrences. -/
def findDuplicates (bms : List Bookmark) : List (String × List Bookmark) :=
  (urlGroups bms).filter (fun kv => kv.2.length > 1)

/-! ### Oracle gating of the async handlers (src/AppContext.tsx)

The handlers' observable behaviour is modelled as the ordered list of
effects they perform: reducer dispatches (by action tag), reachability
probes, external-oracle requests and alerts.  The two services they call —
`categorizeBookmarks` (services/geminiService) and `runAudit`
(services/linkCheckerService), both found among the component sources —
are embedded below at the level of their oracle requests and returned
values; their progress callbacks (which only update the loading overlay)
and console logging are not recorded in the trace, and the network/oracle
responses are parameters (one outcome per batch index). -/

/-- The dispatch tags the modelled handlers emit. -/
inductive DTag where
  | SET_LOADING
  | SET_BOOKMARKS
  | SET_STATS
  | SET_EXPANDED_FOLDERS
  | SET_ACTIVE_FOLDER
  | SET_AI_QUOTA_EXCEEDED
  | SET_HEALTH_AUDIT_REPORT
  | SET_PROPOSED_BOOKMARKS
deriving DecidableEq, Repr

/-- An observable effect of a handler. -/
inductive Eff where
  | dispatch (t : DTag)
  | oracleCall
  | probe (url : String)
  | alertUser
deriving DecidableEq, Repr

/-- One oracle category assignment `{folderName, bookmarkIds}`. -/
structure AICategory where
  folderName : String
  bookmarkIds : List String
deriving DecidableEq, Repr

/-- ASCII model of `String.prototype.toUpperCase` on one character. -/
def jsUpperChar (c : Char) : Char :=
  if 'a' ≤ c && c ≤ 'z' then Char.ofNat (c.toNat - 32) else c

/-- Model of `toLowerCase` on a whole (ASCII) string. -/
def jsLowerStr (st : String) : String := String.mk (st.toList.map jsLowerChar)

/-- The test `folderName[0] === folderName[0].toUpperCase()` for a non-empty name
(the merge loop only evaluates it on trimmed non-empty names). -/
def headIsUpper (st : String) : Bool :=
  match st.toList with
  | [] => true
  | c :: _ => jsUpperChar c = c

/-- The slicing loop `for (i = 0; i < l.length; i += k) push(l.slice(i,
i + k))`, shared by both services (chunking) and their batch grouping.
`cur` carries the pending chunk reversed, `cnt` its size. -/
def chunksOfGo (k : Nat) (cur : List α) (cnt : Nat) : List α → List (List α)
  | [] => if cur.isEmpty then [] else [cur.reverse]
  | x :: xs =>
      if cnt + 1 = k then (x :: cur).reverse :: chunksOfGo k [] 0 xs
      else chunksOfGo k (x :: cur) (cnt + 1) xs

/-- The list `l` cut into consecutive chunks of size `k` (last one possibly shorter). -/
def chunksOf (k : Nat) (l : List α) : List (List α) :=
  chunksOfGo k [] 0 l

/-- How one categorization batch's `processBatch` retry loop (geminiService,
MAX_RETRIES = 3) played out: success after `failuresBefore` transient
failures, carrying the validated category items of the response; a
quota/billing/429 error on attempt `failuresBefore + 1`, raising
`DailyQuotaExceededError`; or three transient failures, after which the
batch contributes nothing. -/
inductive BatchOutcome where
  | ok (failuresBefore : Fin 3) (items : List AICategory)
  | quota (failuresBefore : Fin 3)
  | exhausted
deriving DecidableEq

/-- The oracle requests one categorization batch issues: one per attempt of
its retry loop. -/
def batchCalls : BatchOutcome → List Eff
  | .ok k _ => (List.range (k.val + 1)).map (fun _ => Eff.oracleCall)
  | .quota k => (List.range (k.val + 1)).map (fun _ => Eff.oracleCall)
  | .exhausted => (List.range 3).map (fun _ => Eff.oracleCall)

/-- Did the batch throw `DailyQuotaExceededError`? -/
def batchIsQuota : BatchOutcome → Bool
  | .quota _ => true
  | _ => false

/-- What the batch returned to `categorizeBookmarks` (an exhausted batch
returns the empty list — partial failure is tolerated). -/
def batchItems : BatchOutcome → List AICategory
  | .ok _ items => items
  | _ => []

/-- One step of the category-merging loop of `categorizeBookmarks`:
entries with a falsy or blank-after-trim folder name are skipped; names
are grouped case-insensitively in an insertion-ordered map, member ids
are appended, and a capitalized variant replaces an uncapitalized display
name. -/
def mergeStep (m : List (String × AICategory)) (cat : AICategory) :
    List (String × AICategory) :=
  if cat.folderName = "" then m
  else
    let fn := jsTrim cat.folderName
    if fn = "" then m
    else
      let key := jsLowerStr fn
      if m.any (fun kv => kv.1 = key) then
        m.map (fun kv =>
          if kv.1 = key then
            (kv.1,
              ⟨if headIsUpper fn && !(headIsUpper kv.2.folderName) then fn
                else kv.2.folderName,
               kv.2.bookmarkIds ++ cat.bookmarkIds⟩)
          else kv)
      else m ++ [(key, ⟨fn, cat.bookmarkIds⟩)]

/-- The merged category list `categorizeBookmarks` returns, in first-seen
(insertion) order. -/
def mergeCategories (rs : List AICategory) : List AICategory :=
  (rs.foldl mergeStep []).map (fun kv => kv.2)

/-- The concurrency-group loop of `categorizeBookmarks` over the batch
indices (groups of CONCURRENCY = 5, awaited group by group): every batch
of a group runs its full retry loop (the group was started as a whole
before being awaited), so all of the group's requests occur even when a
sibling throws; a quota throw in a group rejects the awaited
`Promise.all`, so no later group starts and the service rethrows.  Within
a group the concurrent requests are recorded batch-major; as every
recorded effect is the same `oracleCall` token, any interleaving yields
this same list. -/
def categorizeGroups (outcome : Nat → BatchOutcome) :
    List (List Nat) → List Eff × Except Unit (List AICategory)
  | [] => ([], .ok [])
  | g :: rest =>
      let calls := (g.map (fun j => batchCalls (outcome j))).flatten
      if g.any (fun j => batchIsQuota (outcome j)) then (calls, .error ())
      else
        let r := categorizeGroups outcome rest
        (calls ++ r.1,
          r.2.map (fun tailRes => (g.map (fun j => batchItems (outcome j))).flatten ++ tailRes))

/-- Model of `categorizeBookmarks` (geminiService): the input is cut into batches of
CHUNK_SIZE = 20, processed in concurrency groups of 5; the result is the
case-insensitively merged category list, or the quota error.  `outcome j`
is how batch `j`'s oracle interaction played out. -/
def categorizeRun (bms : List Bookmark) (outcome : Nat → BatchOutcome) :
    List Eff × Except Unit (List AICategory) :=
  let groups := chunksOf 5 (List.range (chunksOf 20 bms).length)
  let r := categorizeGroups outcome groups
  (r.1, r.2.map mergeCategories)

/-- One entry of a health-audit oracle response: `{id, status, newUrl?}`. -/
structure OracleLinkResult where
  id : String
  status : String
  newUrl : Option String
deriving DecidableEq, Repr

/-- A health issue as `runAudit` collects it (path is merged in later by
the caller). -/
structure HealthIssue where
  bookmark : Bookmark
  status : String
  newUrl : Option String
deriving DecidableEq, Repr

/-- How one AICHECK batch's retry loop (linkCheckerService, MAX_RETRIES =
3) played out: success after `failuresBefore` transient failures with the
parsed response entries; a quota error, raising `DailyQuotaExceededError`;
or three transient failures (the batch is skipped). -/
inductive AuditBatchOutcome where
  | ok (failuresBefore : Fin 3) (results : List OracleLinkResult)
  | quota (failuresBefore : Fin 3)
  | exhausted
deriving DecidableEq

/-- The oracle requests one AICHECK batch issues: one per attempt. -/
def auditBatchCalls : AuditBatchOutcome → List Eff
  | .ok k _ => (List.range (k.val + 1)).map (fun _ => Eff.oracleCall)
  | .quota k => (List.range (k.val + 1)).map (fun _ => Eff.oracleCall)
  | .exhausted => (List.range 3).map (fun _ => Eff.oracleCall)

/-- The issues one successful AICHECK batch contributes: every non-OK
response entry whose id matches a bookmark of the chunk, in response
order. -/
def auditBatchIssues (chunk : List Bookmark) (results : List OracleLinkResult) :
    List HealthIssue :=
  results.filterMap (fun r =>
    if r.status = "OK" then none
    else (chunk.find? (fun b => b.id = r.id)).map (fun bm => ⟨bm, r.status, r.newUrl⟩))

/-- The sequential AICHECK chunk loop of `runAudit`: chunks are processed
strictly in order; a quota throw aborts the loop (no request for any later
chunk) and propagates; an exhausted batch is skipped.  Returns the oracle
requests, the collected issues, and whether the loop aborted. -/
def auditChunks (aOutcome : Nat → AuditBatchOutcome) :
    Nat → List (List Bookmark) → List Eff × List HealthIssue × Bool
  | _, [] => ([], [], false)
  | idx, chunk :: rest =>
      match aOutcome idx with
      | .quota k => (auditBatchCalls (.quota k), [], true)
      | .ok k results =>
          let r := auditChunks aOutcome (idx + 1) rest
          (auditBatchCalls (.ok k results) ++ r.1,
            auditBatchIssues chunk results ++ r.2.1, r.2.2)
      | .exhausted =>
          let r := auditChunks aOutcome (idx + 1) rest
          (auditBatchCalls .exhausted ++ r.1, r.2.1, r.2.2)

/-- Model of `runAudit` (linkCheckerService): Stage PRECHECK issues one reachability
probe per bookmark (all in parallel, every probe settles before Stage 2);
a rejected probe (`probeOk url = false`) yields a Network Error issue and
removes the bookmark from further consideration; the survivors are cut
into chunks of CHUNK_SIZE = 25 and submitted to the oracle sequentially
with the retry loop above (skipped entirely when no bookmark survives).
The result is the issue list — precheck issues first, in bookmark order —
or the propagated quota error.  The report's summary stats, which no
caller branch reads, are not modelled. -/
def runAuditRun (bms : List Bookmark) (probeOk : String → Bool)
    (aOutcome : Nat → AuditBatchOutcome) : List Eff × Except Unit (List HealthIssue) :=
  let survivors := bms.filter (fun b => probeOk b.url)
  let precheckIssues : List HealthIssue :=
    (bms.filter (fun b => !(probeOk b.url))).map (fun bm => ⟨bm, "Network Error", none⟩)
  let r := auditChunks aOutcome 0 (chunksOf 25 survivors)
  (bms.map (fun b => Eff.probe b.url) ++ r.1,
    if r.2.2 then .error () else .ok (precheckIssues ++ r.2.1))

/-- The part of the app state the three handlers read before and around
their oracle interactions. -/
structure CtxState where
  bookmarks : Option BNodes
  isAIQuotaExceeded : Bool

/-- Effect trace of `handleAutoCategorize` (src/AppContext.tsx): the guard
`if (!state.bookmarks || state.isAIQuotaExceeded) return;` precedes every
effect; afterwards a loading dispatch, the categorization service, and the
branches on its result — a quota throw (the only exception the service can
raise) sets the flag and alerts; an empty category list alerts; otherwise
the reorganisation dispatches — with the `finally` loading dispatch at
the end. -/
def handleAutoCategorizeTrace (s : CtxState) (outcome : Nat → BatchOutcome) : List Eff :=
  match s.bookmarks with
  | none => []
  | some nodes =>
      if s.isAIQuotaExceeded then []
      else
        let run := categorizeRun (flattenBookmarks nodes) outcome
        Eff.dispatch .SET_LOADING ::
          (run.1 ++
            match run.2 with
            | .error _ =>
                [Eff.dispatch .SET_AI_QUOTA_EXCEEDED, Eff.alertUser, Eff.dispatch .SET_LOADING]
            | .ok cats =>
                if cats.length = 0 then [Eff.alertUser, Eff.dispatch .SET_LOADING]
                else
                  Eff.dispatch .SET_LOADING ::
                    (if (cats.filter (fun c =>
                          c.bookmarkIds.any (fun i =>
                            (flattenBookmarks nodes).any (fun b => b.id = i)))).length > 0
                     then
                       [Eff.dispatch .SET_BOOKMARKS, Eff.dispatch .SET_STATS,
                        Eff.dispatch .SET_EXPANDED_FOLDERS, Eff.dispatch .SET_ACTIVE_FOLDER,
                        Eff.dispatch .SET_LOADING]
                     else [Eff.alertUser, Eff.dispatch .SET_LOADING]))

/-- Effect trace of `runBookmarkHealthAudit` (src/AppContext.tsx): only
`if (!state.bookmarks) return;` guards it — the quota flag is never
consulted — then a loading dispatch, the full audit service, and the
branches on its result (any throw is caught with a generic alert; an empty
issue list alerts, otherwise the report is dispatched), with the `finally`
loading dispatch. -/
def runBookmarkHealthAuditTrace (s : CtxState) (probeOk : String → Bool)
    (aOutcome : Nat → AuditBatchOutcome) : List Eff :=
  match s.bookmarks with
  | none => []
  | some nodes =>
      let run := runAuditRun (flattenBookmarks nodes) probeOk aOutcome
      Eff.dispatch .SET_LOADING ::
        (run.1 ++
          match run.2 with
          | .error _ => [Eff.alertUser, Eff.dispatch .SET_LOADING]
          | .ok issues =>
              if issues.length = 0 then
                [Eff.dispatch .SET_LOADING, Eff.alertUser, Eff.dispatch .SET_LOADING]
              else [Eff.dispatch .SET_HEALTH_AUDIT_REPORT, Eff.dispatch .SET_LOADING])

/-- Step 1 of `generateFixItAllProposal`: ids marked for removal from the
duplicate groups — each group is sorted ascending by parsed `addDate` (a
`NaN` comparison counting as equal, per `SortCompare`) and all but the
first (oldest) member are marked. -/
def fixItAllDupIds (bms : List Bookmark) : List String :=
  (findDuplicates bms).foldl
    (fun ids g =>
      ((jsSortOnInt
          (fun a b =>
            match addDateNumVal a, addDateNumVal b with
            | some da, some db => da - db
            | _, _ => 0) g.2).drop 1).foldl
        (fun ids bm => jsSetAdd ids bm.id) ids)
    []

/-- The bookmarks surviving steps 1 and 2 of `generateFixItAllProposal`
(duplicate losers removed, then bookmarks whose reachability probe failed
removed), i.e. the list handed to the categorization oracle in step 3. -/
def fixItAllGoodBookmarks (bms : List Bookmark) (probeOk : String → Bool) : List Bookmark :=
  let dupIds := fixItAllDupIds bms
  let uniqueB := bms.filter (fun b => !(dupIds.contains b.id))
  let deadIds := (uniqueB.filter (fun b => !(probeOk b.url))).map (fun b => b.id)
  let ids2 := deadIds.foldl jsSetAdd dupIds
  bms.filter (fun b => !(ids2.contains b.id))

/-- Effect trace of `generateFixItAllProposal` (src/AppContext.tsx): only
`if (!state.bookmarks) return;` guards it — the quota flag is never
consulted — then the step-1/2/3 loading dispatches, one probe per
surviving unique bookmark with a progress dispatch per chunk of 50, the
categorization service on the good bookmarks, and the branches on its
result (a quota throw sets the flag and alerts; otherwise the proposal is
dispatched). -/
def generateFixItAllTrace (s : CtxState) (probeOk : String → Bool)
    (outcome : Nat → BatchOutcome) : List Eff :=
  match s.bookmarks with
  | none => []
  | some nodes =>
      let allB := flattenBookmarks nodes
      let dupIds := fixItAllDupIds allB
      let uniqueB := allB.filter (fun b => !(dupIds.contains b.id))
      let run := categorizeRun (fixItAllGoodBookmarks allB probeOk) outcome
      Eff.dispatch .SET_LOADING :: Eff.dispatch .SET_LOADING :: Eff.dispatch .SET_LOADING ::
        (uniqueB.map (fun b => Eff.probe b.url) ++
          (List.range ((uniqueB.length + 49) / 50)).map (fun _ => Eff.dispatch .SET_LOADING) ++
          Eff.dispatch .SET_LOADING ::
            (run.1 ++
              match run.2 with
              | .error _ =>
                  [Eff.dispatch .SET_AI_QUOTA_EXCEEDED, Eff.alertUser, Eff.dispatch .SET_LOADING]
              | .ok _ =>
                  [Eff.dispatch .SET_PROPOSED_BOOKMARKS, Eff.dispatch .SET_LOADING]))

/-! ### The import parser (worker code embedded in src/AppContext.tsx) -/

/-- First replacement pass of `decodeEntities`:
`/&(nbsp|amp|quot|lt|gt|#39|#96);/g` with the fixed translation table
(global, left-to-right, non-overlapping; `#39` is an apostrophe and `#96`
a backquote). -/
def decodePass1 : List Char → List Char
  | [] => []
  | '&' :: 'n' :: 'b' :: 's' :: 'p' :: ';' :: rest => ' ' :: decodePass1 rest
  | '&' :: 'a' :: 'm' :: 'p' :: ';' :: rest => '&' :: decodePass1 rest
  | '&' :: 'q' :: 'u' :: 'o' :: 't' :: ';' :: rest => '\"' :: decodePass1 rest
  | '&' :: 'l' :: 't' :: ';' :: rest => '<' :: decodePass1 rest
  | '&' :: 'g' :: 't' :: ';' :: rest => '>' :: decodePass1 rest
  | '&' :: '#' :: '3' :: '9' :: ';' :: rest => Char.ofNat 39 :: decodePass1 rest
  | '&' :: '#' :: '9' :: '6' :: ';' :: rest => Char.ofNat 96 :: decodePass1 rest
  | c :: rest => c :: decodePass1 rest

mutual

/-- Second replacement pass of `decodeEntities`: `/&#(\d+);/gi` replaced by
`String.fromCharCode(parseInt(numStr, 10))` (`fromCharCode` reduces the
code modulo 2^16).  On `&#` the digit run is collected by `decodeNum`. -/
def decodePass2 : List Char → List Char
  | [] => []
  | '&' :: '#' :: rest => decodeNum ['#', '&'] [] rest
  | c :: rest => c :: decodePass2 rest

/-- Digit-run collection for `decodePass2` after a `&#` prefix: `buf` is
the consumed prefix reversed, `ds` the digits reversed.  A `;` after at
least one digit completes a match; anything else leaves the consumed
characters literal, and scanning resumes where the next match could
start. -/
def decodeNum (buf ds : List Char) : List Char → List Char
  | [] => buf.reverse ++ ds.reverse
  | ';' :: rest =>
      if ds.isEmpty then buf.reverse ++ ';' :: decodePass2 rest
      else Char.ofNat (digitsToNat ds.reverse % 65536) :: decodePass2 rest
  | '&' :: '#' :: rest => (buf.reverse ++ ds.reverse) ++ decodeNum ['#', '&'] [] rest
  | c :: rest =>
      if isDigitChar c then decodeNum buf (c :: ds) rest
      else (buf.reverse ++ ds.reverse) ++ c :: decodePass2 rest

end

/-- `decodeEntities` (worker code): falsy (empty) input yields "",
otherwise the two replacement passes in order. -/
def decodeEntities (s : String) : String :=
  if s = "" then "" else String.mk (decodePass2 (decodePass1 s.toList))

mutual

/-- `.replace(/<[^>]*>/g, '')` outside a bracket: copy characters until a
`<` opens a candidate tag. -/
def stripTags : List Char → List Char
  | [] => []
  | '<' :: rest => stripTagsIn ['<'] rest
  | c :: rest => c :: stripTags rest

/-- Inside a candidate tag, with the consumed characters in `buf`
(reversed): a `>` completes the match and the bracketed run is dropped; an
exhausted input means no `>` follows, so no match starts at or after the
buffered `<` and the characters stay literal. -/
def stripTagsIn (buf : List Char) : List Char → List Char
  | [] => buf.reverse
  | '>' :: rest => stripTags rest
  | c :: rest => stripTagsIn (c :: buf) rest

end

/-- `sanitizeTitle` (worker code): decode entities, strip embedded tags, trim. -/
def sanitizeTitle (raw : String) : String :=
  if raw = "" then "" else jsTrim (String.mk (stripTags (decodeEntities raw).toList))

/-- The attribute regexes `/NAME="([^"]*)"/i`: first position where the
case-insensitive `NAME="` prefix matches and a closing quote follows;
capture up to that quote. -/
def findAttr (pat : List Char) : List Char → Option (List Char)
  | [] => none
  | c :: rest =>
      if startsWithCI pat (c :: rest) then
        let after := (c :: rest).drop pat.length
        let cap := after.takeWhile (fun ch => ch ≠ '\"')
        if (after.drop cap.length).isEmpty then findAttr pat rest
        else some cap
      else findAttr pat rest

/-- The lazy capture of `(.+?)` before a case-insensitive close tag: the
shortest non-empty prefix followed by the tag. -/
def capBefore (closeTag : List Char) : List Char → Option (List Char)
  | [] => none
  | c :: rest =>
      if startsWithCI closeTag rest then some [c]
      else (capBefore closeTag rest).map (fun l => c :: l)

/-- The title regexes `/>(.+?)<\/TAG>/i`: leftmost `>` admitting a
non-empty lazy capture closed by the tag. -/
def matchTagText (closeTag : List Char) : List Char → Option (List Char)
  | [] => none
  | '>' :: rest =>
      match capBefore closeTag rest with
      | some cap => some cap
      | none => matchTagText closeTag rest
  | _ :: rest => matchTagText closeTag rest

/-- The guard of the `<DT><A` branch:
`if (!url || url.trim().startsWith('javascript:')) continue;` — note the
prefix test is case-SENSITIVE. -/
def acceptedUrl (u : String) : Bool :=
  !(u = "" || startsWithList ("javascript:".toList) ((jsTrim u).toList))

/-- The `<DT><A` branch of the parser on a trimmed line: extract the href
(empty when the attribute is missing), drop rejected entries, and build
the bookmark node; a missing ADD_DATE defaults to the CURRENT epoch-second
clock rendered as a string, a missing ICON to "".  The random id is
supplied by the caller. -/
def parseAnchorLine (nowSec : Int) (freshId : String) (tl : List Char) : Option Bookmark :=
  let url := match findAttr ("href=\"".toList) tl with
    | some cap => String.mk cap
    | none => ""
  if !(acceptedUrl url) then none
  else
    let title := sanitizeTitle
      (match matchTagText ("</a>".toList) tl with
       | some c => String.mk c
       | none => "Untitled")
    let addDate := match findAttr ("add_date=\"".toList) tl with
      | some c => String.mk c
      | none => toString nowSec
    let icon := match findAttr ("icon=\"".toList) tl with
      | some c => String.mk c
      | none => ""
    some ⟨freshId, title, url, some addDate, some icon, none⟩

/-- The `<DT><H3` branch of the parser on a trimmed line: the new folder
node, with the same ADD_DATE defaulting as bookmarks. -/
def parseFolderLine (nowSec : Int) (freshId : String) (tl : List Char) : BNode :=
  let title := sanitizeTitle
    (match matchTagText ("</h3>".toList) tl with
     | some c => String.mk c
     | none => "Untitled Folder")
  let addDate := match findAttr ("add_date=\"".toList) tl with
    | some c => String.mk c
    | none => toString nowSec
  .folder ⟨freshId, title, some addDate, none⟩ .nil

/-- An open folder of the parser stack: its fields and the children
accumulated so far.  The source keeps a stack of references and pushes
into `parent.children` in place; the pure counterpart keeps the pending
children alongside each open folder and reattaches them on close. -/
structure PFrame where
  info : FolderInfo
  children : BNodes

/-- The parser loop state: the innermost open folder, the stack of outer
open folders (root at the bottom), the two counters of `stats`, and the
fresh-id supply. -/
structure PState where
  top : PFrame
  stk : List PFrame
  bookmarkCount : Nat
  folderCount : Nat
  nextId : Nat

/-- One iteration of the parser's line loop, mirroring the source's branch
order: `<DL>` re-opens the last child when it is a folder; `</DL>` closes
the innermost open folder (ignored at the root); `<DT><H3` appends a
folder node; `<DT><A` appends a bookmark node unless the entry is
rejected; anything else is skipped.  All prefix tests are the source's
`trimmedLine.toUpperCase().startsWith(...)`. -/
def stepLine (nowSec : Int) (st : PState) (line : List Char) : PState :=
  let tl := jsTrimList line
  if startsWithCI ("<dl>".toList) tl then
    match st.top.children.getLast? with
    | some (.folder f ch) =>
        { st with top := ⟨f, ch⟩,
                  stk := ⟨st.top.info, st.top.children.dropLast⟩ :: st.stk }
    | _ => st
  else if startsWithCI ("</dl>".toList) tl then
    match st.stk with
    | [] => st
    | parent :: below =>
        { st with
            top := ⟨parent.info, parent.children.push (.folder st.top.info st.top.children)⟩,
            stk := below }
  else if startsWithCI ("<dt><h3".toList) tl then
    { st with
        top := ⟨st.top.info,
          st.top.children.push (parseFolderLine nowSec ("folder-" ++ toString st.nextId) tl)⟩,
        folderCount := st.folderCount + 1, nextId := st.nextId + 1 }
  else if startsWithCI ("<dt><a".toList) tl then
    match parseAnchorLine nowSec ("bookmark-" ++ toString st.nextId) tl with
    | none => st
    | some b =>
        { st with top := ⟨st.top.info, st.top.children.push (.bm b)⟩,
                  bookmarkCount := st.bookmarkCount + 1, nextId := st.nextId + 1 }
  else st

/-- Close every still-open folder down to the root (open folders' pending
children already sit inside them under the source's in-place pushes). -/
def closeAll : PFrame → List PFrame → PFrame
  | top, [] => top
  | top, parent :: below =>
      closeAll ⟨parent.info, parent.children.push (.folder top.info top.children)⟩ below

/-- `html.split(/\r?\n/)`: split on newlines, consuming one preceding
carriage return per newline. -/
def splitLinesGo : List Char → List Char → List (List Char)
  | cur, [] => [cur.reverse]
  | cur, '\n' :: rest =>
      (match cur with
       | '\r' :: cur2 => cur2.reverse
       | _ => cur.reverse) :: splitLinesGo [] rest
  | cur, c :: rest => splitLinesGo (c :: cur) rest

def splitLines (cs : List Char) : List (List Char) := splitLinesGo [] cs

/-- Direct (bookmark, folder) child counts of a children list. -/
def countDirect : BNodes → Nat × Nat
  | .nil => (0, 0)
  | .cons (.bm _) rest => let r := countDirect rest; (r.1 + 1, r.2)
  | .cons (.folder _ _) rest => let r := countDirect rest; (r.1, r.2 + 1)

/-- `addFolderStats` (worker code): annotate every folder with its direct
child counts (the source mutates the freshly built nodes; the pure
counterpart rebuilds them annotated). -/
def addFolderStats : BNodes → BNodes
  | .nil => .nil
  | .cons (.bm b) rest => .cons (.bm b) (addFolderStats rest)
  | .cons (.folder f ch) rest =>
      .cons (.folder { f with childStats := some (countDirect ch) } (addFolderStats ch))
        (addFolderStats rest)

/-- The parser's returned `stats`. -/
structure ParseStats where
  bookmarkCount : Nat
  folderCount : Nat
deriving DecidableEq, Repr

/-- The synthetic root folder `{id: 'root-folder', type: 'folder', title: 'Root'}`. -/
def rootInfo : FolderInfo := ⟨"root-folder", "Root", none, none⟩

/-- `parseBookmarks` (worker code), with `Date.now()` the explicit `nowMs`
parameter and node ids drawn from a counter supply: the line loop over the
split input, the final (implicit) closing of unterminated folders, and the
`addFolderStats` post-pass; returns `root.children` and the stats. -/
def parseBookmarks (nowMs : Int) (html : String) : BNodes × ParseStats :=
  let nowSec := nowMs / 1000
  let lines := splitLines html.toList
  let st := lines.foldl (stepLine nowSec) ⟨⟨rootInfo, .nil⟩, [], 0, 0, 0⟩
  let root := closeAll st.top st.stk
  (addFolderStats root.children, ⟨st.bookmarkCount, st.folderCount⟩)

/-! ### The reducer's bulk-deletion transitions (appReducer, src/AppContext.tsx) -/

/-- The `stats` object (`bookmarkCount`/`folderCount`); counts are integers
since the source's subtraction can go below zero. -/
structure AppStats where
  bookmarkCount : Int
  folderCount : Int
deriving DecidableEq, Repr

/-- The `filteredState` payload: a title and the filtered bookmark list. -/
structure FilteredState where
  title : String
  bookmarks : List Bookmark
deriving DecidableEq, Repr

/-- The slice of `AppState` the three modelled reducer cases read or write.
`confirmation` is kept as presence only, `healthAuditReport` likewise. -/
structure RState where
  bookmarks : Option BNodes
  stats : Option AppStats
  appMode : String
  duplicates : List DupSet
  filteredState : Option FilteredState
  healthAuditReport : Option Unit
  selectedIssues : List String
  searchQuery : String
  confirmation : Option Unit

/-- The three bulk-deletion actions.  `RESOLVE_ALL_DUPLICATES` carries the
selected id set (a `Set<string>`, modelled as its element list). -/
inductive RAction where
  | RESOLVE_ALL_DUPLICATES (ids : List String)
  | DELETE_FILTERED_BOOKMARKS
  | DELETE_SELECTED_ISSUES

/-- `appReducer` (src/AppContext.tsx) restricted to the three bulk-deletion
cases, each transcribed with its guards: remove the bookmarks, then prune
empty folders, then update stats/mode bookkeeping. -/
def appReducer (s : RState) (a : RAction) : RState :=
  match a with
  | .RESOLVE_ALL_DUPLICATES ids =>
      match s.bookmarks with
      | none => s
      | some bs =>
          if jsSetSize ids = 0 then
            { s with appMode := "normal", duplicates := [], confirmation := none }
          else
            { s with
                bookmarks := some (removeEmptyFolders (removeBookmarksByIds bs ids)),
                stats := s.stats.map
                  (fun st => { st with bookmarkCount := st.bookmarkCount - jsSetSize ids }),
                appMode := "normal", duplicates := [], confirmation := none }
  | .DELETE_FILTERED_BOOKMARKS =>
      match s.bookmarks, s.filteredState with
      | some bs, some fs =>
          let ids := fs.bookmarks.map (fun b => b.id)
          if jsSetSize ids = 0 then { s with confirmation := none }
          else
            { s with
                bookmarks := some (removeEmptyFolders (removeBookmarksByIds bs ids)),
                stats := s.stats.map
                  (fun st => { st with bookmarkCount := st.bookmarkCount - jsSetSize ids }),
                appMode := if s.searchQuery ≠ "" then "normal" else "insights",
                filteredState := none, confirmation := none }
      | _, _ => s
  | .DELETE_SELECTED_ISSUES =>
      match s.bookmarks with
      | none => { s with confirmation := none }
      | some bs =>
          if jsSetSize s.selectedIssues = 0 then { s with confirmation := none }
          else
            { s with
                bookmarks := some (removeEmptyFolders (removeBookmarksByIds bs s.selectedIssues)),
                stats := s.stats.map
                  (fun st => { st with bookmarkCount := st.bookmarkCount - jsSetSize s.selectedIssues }),
                appMode := "normal", healthAuditReport := none,
                selectedIssues := [], confirmation := none }

/-! ### Concrete inputs used by the counterexamples and witnesses -/

/-- A bookmark literal with only id / url / addDate distinguished. -/
def mkBm (i u : String) (d : Option String) : Bookmark :=
  ⟨i, i, u, d, none, none⟩

/-- A two-level tree: folder F containing only the empty folder G. -/
def c1Tree : BNodes :=
  BNodes.ofList [.folder ⟨"f", "F", none, none⟩ (BNodes.ofList [.folder ⟨"g", "G", none, none⟩ .nil])]


/-- The six band labels in the object's declaration order. -/
def bandLabels : List String :=
  ["Over 5 years old", "2-5 years old", "1-2 years old", "6-12 months old",
   "1-6 months old", "Less than 1 month old"]

/-- The ids that belong in band `L`: the valid-dated bookmarks whose age
falls, by the first-match rule over the code's thresholds, into `L` — in
input order. -/
def bandContents (now : Int) (bms : List Bookmark) (L : String) : List String :=
  bms.filterMap (fun bm =>
    match dateTimeMs bm with
    | none => none
    | some t => if firstBand ageBands (now - t) = L then some bm.id else none)

/-- The ids of a duplicate group's entries, in order. -/
def itemIds (g : DupSet) : List String :=
  g.items.map (fun it => it.bookmark.id)

/-- The flattened bookmarks of the whole parser state (every open frame
closed down to the root), i.e. of the tree the parse would return from
this state. -/
def flattenFrames (top : PFrame) (stk : List PFrame) : List Bookmark :=
  flattenBookmarks (closeAll top stk).children

/-! ## Theorems -/

/-- Structural induction over node sequences, recursing into folder children. -/
theorem bnodes_ind (P : BNodes → Prop) (h0 : P .nil)
    (h1 : ∀ b rest, P rest → P (.cons (.bm b) rest))
    (h2 : ∀ f ch rest, P ch → P rest → P (.cons (.folder f ch) rest)) :
    ∀ l, P l
  | .nil => h0
  | .cons (.bm b) rest => h1 b rest (bnodes_ind P h0 h1 h2 rest)
  | .cons (.folder f ch) rest =>
      h2 f ch rest (bnodes_ind P h0 h1 h2 ch) (bnodes_ind P h0 h1 h2 rest)

/-- C3: for every tree T, `flatten (removeEmptyFolders T) = flatten T` —
pruning empty folders removes no bookmark and preserves the depth-first
bookmark order. -/
theorem flatten_removeEmptyFolders_eq :
    ∀ t : BNodes, flattenBookmarks (removeEmptyFolders t) = flattenBookmarks t := by
  refine bnodes_ind _ rfl ?_ ?_
  · intro b rest ih
    simp [removeEmptyFolders, flattenBookmarks, ih]
  · intro f ch rest ih1 ih2
    simp only [removeEmptyFolders, flattenBookmarks]
    by_cases h : (removeEmptyFolders ch).length > 0
    · rw [if_pos h]
      simp only [flattenBookmarks]
      rw [ih1, ih2]
    · have hch : removeEmptyFolders ch = .nil := by
        cases hc : removeEmptyFolders ch with
        | nil => rfl
        | cons a l => rw [hc] at h; exact absurd (Nat.succ_pos _) h
      have hfl : flattenBookmarks ch = [] := by
        rw [← ih1, hch]; simp [flattenBookmarks]
      rw [if_neg h, ih2, hfl, List.nil_append]

/-- C4: `removeByIds` keeps exactly the bookmarks whose id is outside the
set, unchanged and in their original relative order (the flattening of the
result is the filtered flattening of the input), and removes no folder
(the depth-first folder-id list is untouched), even for a folder whose id
is in the set or one left empty. -/
theorem removeBookmarksByIds_spec (t : BNodes) (ids : List String) :
    flattenBookmarks (removeBookmarksByIds t ids) =
      (flattenBookmarks t).filter (fun b => !(ids.contains b.id)) ∧
    folderIds (removeBookmarksByIds t ids) = folderIds t := by
  induction t using bnodes_ind with
  | h0 => exact ⟨rfl, rfl⟩
  | h1 b rest ih =>
      cases h : ids.contains b.id with
      | true =>
          simp only [removeBookmarksByIds, h, if_pos, flattenBookmarks, folderIds,
            List.filter_cons]
          simpa [h] using ih
      | false =>
          simp only [removeBookmarksByIds, h, Bool.false_eq_true, if_neg, not_false_iff,
            flattenBookmarks, folderIds, List.filter_cons]
          simp [h, ih.1, ih.2]
  | h2 f ch rest ih1 ih2 =>
      simp [removeBookmarksByIds, flattenBookmarks, folderIds, List.filter_append,
        ih1.1, ih1.2, ih2.1, ih2.2]

/-- C1 (the code, run at the failing input): `removeFoldersByIds` MUTATES
its input — on the tree [F[G[]]] with id set {g}, the call's in-place
assignment to the retained folder's `children` leaves the input tree
reading [F[]], no longer its original value. -/
theorem removeFoldersByIds_mutates_input :
    removeFoldersByIdsPost c1Tree ["g"] =
      BNodes.ofList [.folder ⟨"f", "F", none, none⟩ .nil] ∧
    removeFoldersByIdsPost c1Tree ["g"] ≠ c1Tree := by decide

/-- C10: each of the three bulk-deletion reducer transitions rewrites the
tree to `removeEmptyFolders (removeBookmarksByIds tree ids)` — after
dropping the given bookmark ids it also prunes every folder left with no
surviving descendant bookmark, so unselected folders can disappear. -/
theorem bulkDeletion_prunes_empty_folders :
    (∀ (s : RState) (bs : BNodes) (ids : List String),
        s.bookmarks = some bs → jsSetSize ids ≠ 0 →
        (appReducer s (.RESOLVE_ALL_DUPLICATES ids)).bookmarks =
          some (removeEmptyFolders (removeBookmarksByIds bs ids))) ∧
    (∀ (s : RState) (bs : BNodes) (fs : FilteredState),
        s.bookmarks = some bs → s.filteredState = some fs →
        jsSetSize (fs.bookmarks.map (fun b => b.id)) ≠ 0 →
        (appReducer s .DELETE_FILTERED_BOOKMARKS).bookmarks =
          some (removeEmptyFolders
            (removeBookmarksByIds bs (fs.bookmarks.map (fun b => b.id))))) ∧
    (∀ (s : RState) (bs : BNodes),
        s.bookmarks = some bs → jsSetSize s.selectedIssues ≠ 0 →
        (appReducer s .DELETE_SELECTED_ISSUES).bookmarks =
          some (removeEmptyFolders (removeBookmarksByIds bs s.selectedIssues))) := by
  refine ⟨?_, ?_, ?_⟩
  · intro s bs ids hb hn
    simp [appReducer, hb, hn]
  · intro s bs fs hb hf hn
    simp [appReducer, hb, hf, hn]
  · intro s bs hb hn
    simp [appReducer, hb, hn]

/-- Witness for C10: the three transitions evaluated on a concrete state
holding the tree [F[], b1] — deleting bookmark b1 also deletes the
never-selected folder F. -/
theorem bulkDeletion_prunes_empty_folders_witness :
    (appReducer
        ⟨some (BNodes.ofList [.folder ⟨"f", "F", none, none⟩ .nil,
            .bm (mkBm "b1" "https://a.com" none)]),
         none, "duplicates", [], some ⟨"t", [mkBm "b1" "https://a.com" none]⟩, none,
         ["b1"], "", none⟩
        (.RESOLVE_ALL_DUPLICATES ["b1"])).bookmarks = some .nil ∧
    (appReducer
        ⟨some (BNodes.ofList [.folder ⟨"f", "F", none, none⟩ .nil,
            .bm (mkBm "b1" "https://a.com" none)]),
         none, "filtered", [], some ⟨"t", [mkBm "b1" "https://a.com" none]⟩, none,
         ["b1"], "", none⟩
        .DELETE_FILTERED_BOOKMARKS).bookmarks = some .nil ∧
    (appReducer
        ⟨some (BNodes.ofList [.folder ⟨"f", "F", none, none⟩ .nil,
            .bm (mkBm "b1" "https://a.com" none)]),
         none, "healthAudit", [], some ⟨"t", [mkBm "b1" "https://a.com" none]⟩, none,
         ["b1"], "", none⟩
        .DELETE_SELECTED_ISSUES).bookmarks = some .nil := by
  refine ⟨?_, ?_, ?_⟩
  · rw [bulkDeletion_prunes_empty_folders.1 _
      (BNodes.ofList [.folder ⟨"f", "F", none, none⟩ .nil,
        .bm (mkBm "b1" "https://a.com" none)]) ["b1"] rfl (by decide)]
    decide
  · rw [bulkDeletion_prunes_empty_folders.2.1 _
      (BNodes.ofList [.folder ⟨"f", "F", none, none⟩ .nil,
        .bm (mkBm "b1" "https://a.com" none)])
      ⟨"t", [mkBm "b1" "https://a.com" none]⟩ rfl rfl (by decide)]
    decide
  · rw [bulkDeletion_prunes_empty_folders.2.2 _
      (BNodes.ofList [.folder ⟨"f", "F", none, none⟩ .nil,
        .bm (mkBm "b1" "https://a.com" none)]) rfl (by decide)]
    decide

/-- Sortedness of the stable sort model: with a total, transitive
comparator, consecutive outputs satisfy `cmp a b ≤ 0`. -/
theorem jsSortOnInt_pairwise (cmp : α → α → Int)
    (htot : ∀ a b, cmp a b ≤ 0 ∨ cmp b a ≤ 0)
    (htrans : ∀ a b c, cmp a b ≤ 0 → cmp b c ≤ 0 → cmp a c ≤ 0)
    (l : List α) : (jsSortOnInt cmp l).Pairwise (fun a b => cmp a b ≤ 0) := by
  haveI : IsTotal α (fun a b => cmp a b ≤ 0) := ⟨htot⟩
  haveI : IsTrans α (fun a b => cmp a b ≤ 0) := ⟨fun a b c => htrans a b c⟩
  exact List.sorted_insertionSort _ l

/-- The sort model permutes its input. -/
theorem jsSortOnInt_perm (cmp : α → α → Int) (l : List α) :
    List.Perm (jsSortOnInt cmp l) l :=
  List.perm_insertionSort _ l

/-- Filtering commutes with `orderedInsert` when the predicate can only
hold on one side of a strict comparison against the inserted element. -/
theorem filter_orderedInsert (r : α → α → Prop) [DecidableRel r] (p : α → Bool) (x : α) :
    ∀ l : List α, (∀ y ∈ l, ¬ r x y → p x = true → p y = false) →
      (List.orderedInsert r x l).filter p =
        if p x then x :: l.filter p else l.filter p := by
  intro l
  induction l with
  | nil =>
      intro _
      by_cases hx : p x <;> simp [List.orderedInsert, hx]
  | cons y ys ih =>
      intro hy
      by_cases hr : r x y
      · rw [List.orderedInsert, if_pos hr]
        by_cases hx : p x <;> simp [List.filter_cons, hx]
      · rw [List.orderedInsert, if_neg hr, List.filter_cons,
          ih (fun z hz => hy z (List.mem_cons_of_mem y hz))]
        by_cases hx : p x
        · have hyf : p y = false := hy y (List.mem_cons_self y ys) hr hx
          simp [List.filter_cons, hx, hyf]
        · by_cases hpy : p y <;> simp [List.filter_cons, hx, hpy]

/-- Stability of the sort model, as filter-invariance: the subsequence of
elements satisfying a comparator-tie-closed predicate is exactly the input
subsequence (in input order). -/
theorem filter_insertionSort (r : α → α → Prop) [DecidableRel r] (p : α → Bool)
    (hp : ∀ x y, ¬ r x y → p x = true → p y = false) :
    ∀ l : List α, (l.insertionSort r).filter p = l.filter p := by
  intro l
  induction l with
  | nil => rfl
  | cons x xs ih =>
      simp only [List.insertionSort]
      rw [filter_orderedInsert r p x _ (fun y _ => hp x y), ih]
      by_cases hx : p x <;> simp [List.filter_cons, hx]

/-- `bumpWord` introduces no key beyond the bumped word. -/
theorem mem_bumpWord_valid (P : String → Prop) (m : List (String × Nat)) (w : String)
    (hm : ∀ e ∈ m, P e.1) (hw : P w) : ∀ e ∈ bumpWord m w, P e.1 := by
  intro e he
  unfold bumpWord at he
  by_cases h : m.any (fun kv => kv.1 = w)
  · rw [if_pos h] at he
    obtain ⟨kv, hkv, hekv⟩ := List.mem_map.mp he
    by_cases hk : kv.1 = w
    · rw [if_pos hk] at hekv
      rw [← hekv]
      exact hm kv hkv
    · rw [if_neg hk] at hekv
      rw [← hekv]
      exact hm kv hkv
  · rw [if_neg h] at he
    rcases List.mem_append.mp he with h1 | h2
    · exact hm e h1
    · have : e = (w, 1) := List.mem_singleton.mp h2
      rw [this]
      exact hw

/-- Every key accumulated by the token fold passes the keyword filter. -/
theorem tokensFold_valid (ws : List String) :
    ∀ m, (∀ e ∈ m, keywordOk e.1 = true) →
      ∀ e ∈ ws.foldl (fun m w => if keywordOk w then bumpWord m w else m) m,
        keywordOk e.1 = true := by
  induction ws with
  | nil => intro m hm e he; exact hm e he
  | cons w ws ih =>
      intro m hm e he
      simp only [List.foldl_cons] at he
      by_cases hw : keywordOk w
      · rw [if_pos hw] at he
        exact ih _ (mem_bumpWord_valid (fun s => keywordOk s = true) m w hm hw) e he
      · rw [if_neg hw] at he
        exact ih _ hm e he

/-- Every key of the accumulated keyword-count map passes the filter. -/
theorem keywordCounts_valid (bms : List Bookmark) :
    ∀ e ∈ keywordCounts bms, keywordOk e.1 = true := by
  suffices h : ∀ (bs : List Bookmark) m, (∀ e ∈ m, keywordOk e.1 = true) →
      ∀ e ∈ bs.foldl
        (fun m bm =>
          (tokenizeTitle bm.title).foldl
            (fun m w => if keywordOk w then bumpWord m w else m) m) m,
        keywordOk e.1 = true by
    intro e he
    exact h bms [] (by intro e' he'; cases he') e he
  intro bs
  induction bs with
  | nil => intro m hm e he; exact hm e he
  | cons bm bs ih =>
      intro m hm e he
      simp only [List.foldl_cons] at he
      exact ih _ (tokensFold_valid _ m hm) e he

/-- C9: keyword-analysis output never contains a stop word, a purely
numeric token, or a token of length ≤ 2; it is sorted by non-increasing
count; entries sharing one count value form a subsequence of the
first-encounter-ordered count map (ties stay in first-encountered order);
and there are at most 30 entries. -/
theorem analyzeTitleKeywords_spec (bms : List Bookmark) :
    (∀ e ∈ analyzeTitleKeywords bms,
        STOP_WORDS.contains e.1 = false ∧ isAllDigits e.1 = false ∧ 2 < e.1.length) ∧
    (analyzeTitleKeywords bms).Pairwise (fun a b => b.2 ≤ a.2) ∧
    (∀ c : Nat,
        ((analyzeTitleKeywords bms).filter (fun e => e.2 = c)).Sublist
          ((keywordCounts bms).filter (fun e => e.2 = c))) ∧
    (analyzeTitleKeywords bms).length ≤ 30 := by
  refine ⟨?_, ?_, ?_, ?_⟩
  · intro e he
    have hmem : e ∈ jsSortOnInt (fun a b => (b.2 : Int) - (a.2 : Int)) (keywordCounts bms) :=
      (List.take_sublist _ _).mem he
    have hok : keywordOk e.1 = true := by
      refine keywordCounts_valid bms e ?_
      exact ((jsSortOnInt_perm _ _).mem_iff).mp hmem
    simp only [keywordOk, Bool.and_eq_true, Bool.not_eq_true', decide_eq_true_eq] at hok
    exact ⟨hok.1.2, hok.2, hok.1.1⟩
  · have hp := jsSortOnInt_pairwise (fun (a b : String × Nat) => (b.2 : Int) - (a.2 : Int))
      (by
        intro x y
        show (y.2 : Int) - (x.2 : Int) ≤ 0 ∨ (x.2 : Int) - (y.2 : Int) ≤ 0
        omega)
      (by
        intro x y z h1 h2
        have h1' : (y.2 : Int) - (x.2 : Int) ≤ 0 := h1
        have h2' : (z.2 : Int) - (y.2 : Int) ≤ 0 := h2
        show (z.2 : Int) - (x.2 : Int) ≤ 0
        omega)
      (keywordCounts bms)
    have := hp.sublist (List.take_sublist 30 _)
    refine this.imp ?_
    intro a b h
    have h' : (b.2 : Int) - (a.2 : Int) ≤ 0 := h
    omega
  · intro c
    have h1 : ((analyzeTitleKeywords bms).filter (fun e => e.2 = c)).Sublist
        ((jsSortOnInt (fun a b => (b.2 : Int) - (a.2 : Int)) (keywordCounts bms)).filter
          (fun e => e.2 = c)) :=
      (List.take_sublist 30 _).filter _
    have h2 : ((jsSortOnInt (fun a b => (b.2 : Int) - (a.2 : Int)) (keywordCounts bms)).filter
        (fun e => e.2 = c)) = (keywordCounts bms).filter (fun e => e.2 = c) := by
      refine filter_insertionSort _ _ ?_ _
      intro x y hxy hx
      simp only [not_le, decide_eq_true_eq] at hxy hx ⊢
      simp only [decide_eq_false_iff_not]
      omega
    rw [h2] at h1
    exact h1
  · simp only [analyzeTitleKeywords]
    exact List.length_take_le 30 _

/-- The `analyzeBookmarkAges` loop, characterised: folding `ageStep` over
the input appends to each band's list exactly the ids of the valid-dated
bookmarks whose age falls into that band by the first-match rule over the
code's thresholds, in input order. -/
theorem ageAcc_fold (now : Int) :
    ∀ (bms : List Bookmark) (acc : AgeAcc),
      bms.foldl (ageStep now) acc =
        ⟨acc.over5 ++ bandContents now bms "Over 5 years old",
         acc.y2to5 ++ bandContents now bms "2-5 years old",
         acc.y1to2 ++ bandContents now bms "1-2 years old",
         acc.m6to12 ++ bandContents now bms "6-12 months old",
         acc.m1to6 ++ bandContents now bms "1-6 months old",
         acc.lt1m ++ bandContents now bms "Less than 1 month old"⟩ := by
  intro bms
  induction bms with
  | nil =>
      intro acc
      cases acc
      simp [bandContents]
  | cons bm rest ih =>
      intro acc
      simp only [List.foldl_cons]
      rw [ih (ageStep now acc bm)]
      cases hd : dateTimeMs bm with
      | none => simp [ageStep, hd, bandContents, List.filterMap_cons]
      | some t =>
          by_cases h1 : now - t > fiveYearsMs
          · have hb : firstBand ageBands (now - t) = "Over 5 years old" := by
              simp [firstBand, ageBands, List.find?, h1]
            simp [ageStep, hd, h1, bandContents, List.filterMap_cons, hb]
          · by_cases h2 : now - t > twoYearsMs
            · have hb : firstBand ageBands (now - t) = "2-5 years old" := by
                simp [firstBand, ageBands, List.find?, h1, h2]
              simp [ageStep, hd, h1, h2, bandContents, List.filterMap_cons, hb]
            · by_cases h3 : now - t > oneYearMs
              · have hb : firstBand ageBands (now - t) = "1-2 years old" := by
                  simp [firstBand, ageBands, List.find?, h1, h2, h3]
                simp [ageStep, hd, h1, h2, h3, bandContents, List.filterMap_cons, hb]
              · by_cases h4 : now - t > sixMonthsMs
                · have hb : firstBand ageBands (now - t) = "6-12 months old" := by
                    simp [firstBand, ageBands, List.find?, h1, h2, h3, h4]
                  simp [ageStep, hd, h1, h2, h3, h4, bandContents, List.filterMap_cons, hb]
                · by_cases h5 : now - t > oneMonthMs
                  · have hb : firstBand ageBands (now - t) = "1-6 months old" := by
                      simp [firstBand, ageBands, List.find?, h1, h2, h3, h4, h5]
                    simp [ageStep, hd, h1, h2, h3, h4, h5, bandContents,
                      List.filterMap_cons, hb]
                  · have hb : firstBand ageBands (now - t) = "Less than 1 month old" := by
                      simp [firstBand, ageBands, List.find?, h1, h2, h3, h4, h5]
                    simp [ageStep, hd, h1, h2, h3, h4, h5, bandContents,
                      List.filterMap_cons, hb]

/-- C6 (amended thresholds): age analysis places every bookmark with a
parseable timestamp into exactly one band — the first band in priority
order whose lower bound its age exceeds, the code's lower bounds being
1800, 720, 360, 180 and 30 days (months of 30 days) — and the output
lists the bands in fixed priority order, omitting empty ones. -/
theorem analyzeBookmarkAges_spec (now : Int) (bms : List Bookmark) :
    analyzeBookmarkAges now bms =
      (bandLabels.map (fun L => (L, bandContents now bms L))).filter
        (fun g => g.2.length > 0) := by
  unfold analyzeBookmarkAges
  rw [ageAcc_fold now bms ⟨[], [], [], [], [], []⟩]
  simp [bandLabels]

/-- C6 counterexample: a bookmark aged exactly 1810 days (now at epoch
156384000000 ms, addDate 0).  The specification's thresholds (first lower
bound, in days: 1825) would place it in the "2-5 years" band, but the code
reports it as "Over 5 years old" (its threshold is 1800 days). -/
theorem analyzeBookmarkAges_counterexample :
    analyzeBookmarkAges 156384000000 [mkBm "b1" "u" (some "0")] =
      [("Over 5 years old", ["b1"])] ∧
    firstBand specAgeBands (156384000000 - 0) = "2-5 years old" ∧
    ("Over 5 years old" : String) ≠ "2-5 years old" := by decide

/-- Membership after a set-model add. -/
theorem mem_jsSetAdd (sel : List String) (i x : String) :
    x ∈ jsSetAdd sel i ↔ x ∈ sel ∨ x = i := by
  unfold jsSetAdd
  by_cases h : sel.contains i
  · rw [if_pos h]
    constructor
    · exact Or.inl
    · rintro (hx | rfl)
      · exact hx
      · simpa using h
  · rw [if_neg h]
    simp [List.mem_append]

/-- Membership after folding set-model adds. -/
theorem mem_foldl_jsSetAdd (ids : List String) :
    ∀ (sel : List String) (x : String),
      x ∈ ids.foldl jsSetAdd sel ↔ x ∈ sel ∨ x ∈ ids := by
  induction ids with
  | nil => intro sel x; simp
  | cons i ids ih =>
      intro sel x
      simp only [List.foldl_cons]
      rw [ih (jsSetAdd sel i) x, mem_jsSetAdd]
      constructor
      · rintro ((hx | rfl) | hx)
        · exact Or.inl hx
        · exact Or.inr (List.mem_cons_self _ _)
        · exact Or.inr (List.mem_cons_of_mem _ hx)
      · rintro (hx | hx)
        · exact Or.inl (Or.inl hx)
        · rcases List.mem_cons.mp hx with rfl | hx
          · exact Or.inl (Or.inr rfl)
          · exact Or.inr hx

/-- Adding preserves the set model's duplicate-freeness. -/
theorem nodup_jsSetAdd (sel : List String) (i : String) (h : sel.Nodup) :
    (jsSetAdd sel i).Nodup := by
  unfold jsSetAdd
  by_cases hc : sel.contains i
  · rwa [if_pos hc]
  · rw [if_neg hc]
    refine List.Nodup.append h (List.nodup_singleton i) ?_
    intro x hx hxi
    rcases List.mem_singleton.mp hxi with rfl
    exact hc (by simpa using hx)

/-- Folding adds preserves duplicate-freeness. -/
theorem nodup_foldl_jsSetAdd (ids : List String) :
    ∀ sel : List String, sel.Nodup → (ids.foldl jsSetAdd sel).Nodup := by
  induction ids with
  | nil => intro sel h; exact h
  | cons i ids ih =>
      intro sel h
      exact ih _ (nodup_jsSetAdd sel i h)

/-- One scan step preserves duplicate-freeness of the selection. -/
theorem nodup_scanGroup (probeOk : String → Bool) (sel : List String) (g : DupSet)
    (h : sel.Nodup) : (scanGroup probeOk sel g).Nodup := by
  unfold scanGroup
  by_cases hp : probeOk g.url
  · rw [if_pos hp]
    cases jsSortOnInt smartCmp g.items with
    | nil => exact h
    | cons best rest => exact nodup_foldl_jsSetAdd _ _ (h.erase _)
  · rw [if_neg hp]
    exact nodup_foldl_jsSetAdd _ _ h

/-- Ids outside a group are untouched by its scan step. -/
theorem scanGroup_frame (probeOk : String → Bool) (sel : List String) (g : DupSet)
    (x : String) (hx : x ∉ itemIds g) :
    (x ∈ scanGroup probeOk sel g ↔ x ∈ sel) := by
  unfold scanGroup
  by_cases hp : probeOk g.url
  · rw [if_pos hp]
    cases hs : jsSortOnInt smartCmp g.items with
    | nil => exact Iff.rfl
    | cons best rest =>
        rw [mem_foldl_jsSetAdd]
        have hperm : List.Perm (best :: rest) g.items := hs ▸ jsSortOnInt_perm smartCmp g.items
        have hbestmem : best ∈ g.items := hperm.mem_iff.mp (List.mem_cons_self best rest)
        have hxbest : x ≠ best.bookmark.id := by
          intro hxe
          exact hx (hxe ▸ List.mem_map_of_mem _ hbestmem)
        have hxrest : x ∉ rest.map (fun it => it.bookmark.id) := by
          intro hmem
          obtain ⟨it, hit, hxe⟩ := List.mem_map.mp hmem
          have : it ∈ g.items := hperm.mem_iff.mp (List.mem_cons_of_mem best hit)
          exact hx (hxe ▸ List.mem_map_of_mem _ this)
        constructor
        · rintro (hin | hin)
          · exact (List.mem_erase_of_ne hxbest).mp hin
          · exact absurd hin hxrest
        · intro hin
          exact Or.inl ((List.mem_erase_of_ne hxbest).mpr hin)
  · rw [if_neg hp, mem_foldl_jsSetAdd]
    constructor
    · rintro (hin | hin)
      · exact hin
      · exact absurd hin hx
    · exact Or.inl

/-- Ids outside every remaining group are untouched by the rest of the fold. -/
theorem foldl_scanGroup_frame (probeOk : String → Bool) :
    ∀ (post : List DupSet) (sel : List String) (x : String),
      (∀ g ∈ post, x ∉ itemIds g) →
      (x ∈ post.foldl (scanGroup probeOk) sel ↔ x ∈ sel) := by
  intro post
  induction post with
  | nil => intro sel x _; exact Iff.rfl
  | cons g rest ih =>
      intro sel x hx
      simp only [List.foldl_cons]
      rw [ih _ x (fun g' hg' => hx g' (List.mem_cons_of_mem g hg')),
        scanGroup_frame probeOk sel g x (hx g (List.mem_cons_self g rest))]

/-- The selection stays duplicate-free through the whole scan fold. -/
theorem nodup_foldl_scanGroup (probeOk : String → Bool) :
    ∀ (dups : List DupSet) (sel : List String), sel.Nodup →
      (dups.foldl (scanGroup probeOk) sel).Nodup := by
  intro dups
  induction dups with
  | nil => intro sel h; exact h
  | cons g rest ih =>
      intro sel h
      exact ih _ (nodup_scanGroup probeOk sel g h)

/-- `orderedInsert` keeps a pairwise-sorted list sorted, assuming totality
against the inserted element and transitivity through it only on the
list's members. -/
theorem pairwise_orderedInsert_on (r : α → α → Prop) [DecidableRel r] (x : α) :
    ∀ l : List α, l.Pairwise r →
      (∀ b ∈ l, r x b ∨ r b x) →
      (∀ b ∈ l, ∀ c ∈ l, r x b → r b c → r x c) →
      (List.orderedInsert r x l).Pairwise r := by
  intro l
  induction l with
  | nil => intro _ _ _; simp
  | cons y ys ih =>
      intro hp htot htrans
      rcases List.pairwise_cons.mp hp with ⟨hy, hys⟩
      by_cases hr : r x y
      · rw [List.orderedInsert, if_pos hr]
        refine List.pairwise_cons.mpr ⟨?_, hp⟩
        intro z hz
        rcases List.mem_cons.mp hz with rfl | hz
        · exact hr
        · exact htrans y (List.mem_cons_self y ys) z (List.mem_cons_of_mem y hz) hr (hy z hz)
      · rw [List.orderedInsert, if_neg hr]
        refine List.pairwise_cons.mpr ⟨?_, ?_⟩
        · intro z hz
          rcases (List.mem_orderedInsert r).mp hz with rfl | hz
          · exact (htot y (List.mem_cons_self y ys)).resolve_left hr
          · exact hy z hz
        · exact ih hys (fun b hb => htot b (List.mem_cons_of_mem y hb))
            (fun b hb c hc => htrans b (List.mem_cons_of_mem y hb) c (List.mem_cons_of_mem y hc))

/-- The stable sort's output is pairwise-sorted when the comparator is
total and transitive on the list's members. -/
theorem pairwise_insertionSort_on (r : α → α → Prop) [DecidableRel r] :
    ∀ l : List α,
      (∀ a ∈ l, ∀ b ∈ l, r a b ∨ r b a) →
      (∀ a ∈ l, ∀ b ∈ l, ∀ c ∈ l, r a b → r b c → r a c) →
      (l.insertionSort r).Pairwise r := by
  intro l
  induction l with
  | nil => intro _ _; simp
  | cons x xs ih =>
      intro htot htrans
      simp only [List.insertionSort]
      have hmem : ∀ b ∈ xs.insertionSort r, b ∈ x :: xs :=
        fun b hb => List.mem_cons_of_mem x ((List.mem_insertionSort r).mp hb)
      refine pairwise_orderedInsert_on r x _ ?_ ?_ ?_
      · exact ih (fun a ha b hb => htot a (List.mem_cons_of_mem x ha) b (List.mem_cons_of_mem x hb))
          (fun a ha b hb c hc => htrans a (List.mem_cons_of_mem x ha) b (List.mem_cons_of_mem x hb)
            c (List.mem_cons_of_mem x hc))
      · intro b hb
        exact htot x (List.mem_cons_self x xs) b (hmem b hb)
      · intro b hb c hc
        exact htrans x (List.mem_cons_self x xs) b (hmem b hb) c (hmem c hc)

/-- The smart-scan comparator, characterised on items whose `addDate`
parses: `a` sorts no later than `b` iff `a`'s split-path count is smaller,
or equal with `a`'s parsed date at least `b`'s. -/
theorem smartCmp_le_iff (a b : DupItem)
    (ha : (addDateNumVal a.bookmark).isSome = true)
    (hb : (addDateNumVal b.bookmark).isSome = true) :
    (smartCmp a b ≤ 0 ↔
      ((jsSplitCount '/' a.path : Int) < jsSplitCount '/' b.path ∨
        (jsSplitCount '/' a.path = jsSplitCount '/' b.path ∧
          (addDateNumVal b.bookmark).getD 0 ≤ (addDateNumVal a.bookmark).getD 0))) := by
  obtain ⟨da, hda⟩ := Option.isSome_iff_exists.mp ha
  obtain ⟨db, hdb⟩ := Option.isSome_iff_exists.mp hb
  simp only [smartCmp, hda, hdb, Option.getD_some]
  split_ifs with h
  · omega
  · omega

/-- A dead-URL group's scan step selects every member id. -/
theorem scanGroup_dead (probeOk : String → Bool) (sel : List String) (g : DupSet)
    (hp : probeOk g.url = false) :
    ∀ it ∈ g.items, it.bookmark.id ∈ scanGroup probeOk sel g := by
  intro it hit
  unfold scanGroup
  rw [hp]
  simp only [Bool.false_eq_true, if_false]
  rw [mem_foldl_jsSetAdd]
  exact Or.inr (List.mem_map_of_mem _ hit)

/-- A live-URL group's scan step, unfolded on its sorted items. -/
theorem scanGroup_alive (probeOk : String → Bool) (sel : List String) (g : DupSet)
    (hp : probeOk g.url = true) (best : DupItem) (rest : List DupItem)
    (hs : jsSortOnInt smartCmp g.items = best :: rest) :
    scanGroup probeOk sel g =
      (rest.map (fun it => it.bookmark.id)).foldl jsSetAdd
        (jsSetDelete sel best.bookmark.id) := by
  unfold scanGroup
  rw [hp, hs]
  simp

/-- C5 (amended): for every duplicate group processed by the smart scan —
assuming the groups' member ids are globally distinct and the previous
selection has no duplicate — a group whose URL probe failed has all its
members selected for removal; a group whose URL probe succeeded, whose
members' timestamps parse and whose (split-path count, parsed date) rank
keys are pairwise distinct, keeps exactly one member: the one ranked best
by FEWEST `split('/')` segments of the breadcrumb string (so a root-level
bookmark, path "", counts 1 — the same as a bookmark one folder deep),
with ties broken by the larger parsed `addDate` (absent dates read 0);
that member ends unselected and every other member's id ends selected. -/
theorem performSmartScan_spec (probeOk : String → Bool) (dups : List DupSet)
    (init : List String)
    (hinit : init.Nodup)
    (hdisj : dups.Pairwise (fun g1 g2 => ∀ x ∈ itemIds g1, x ∉ itemIds g2))
    (hids : ∀ g ∈ dups, (itemIds g).Nodup) :
    ∀ g ∈ dups,
      (probeOk g.url = false →
        ∀ it ∈ g.items, it.bookmark.id ∈ performSmartScanSelect probeOk dups init) ∧
      (probeOk g.url = true →
        (∀ it ∈ g.items, (addDateNumVal it.bookmark).isSome = true) →
        g.items.Pairwise (fun a b =>
          ¬(jsSplitCount '/' a.path = jsSplitCount '/' b.path ∧
            (addDateNumVal a.bookmark).getD 0 = (addDateNumVal b.bookmark).getD 0)) →
        g.items ≠ [] →
        ∃ best ∈ g.items,
          (∀ it ∈ g.items, it ≠ best →
            (jsSplitCount '/' best.path < jsSplitCount '/' it.path ∨
              (jsSplitCount '/' best.path = jsSplitCount '/' it.path ∧
                (addDateNumVal it.bookmark).getD 0 <
                  (addDateNumVal best.bookmark).getD 0))) ∧
          best.bookmark.id ∉ performSmartScanSelect probeOk dups init ∧
          (∀ it ∈ g.items, it.bookmark.id ≠ best.bookmark.id →
            it.bookmark.id ∈ performSmartScanSelect probeOk dups init)) := by
  intro g hg
  obtain ⟨pre, post, rfl⟩ := List.append_of_mem hg
  have hfold : performSmartScanSelect probeOk (pre ++ g :: post) init =
      post.foldl (scanGroup probeOk)
        (scanGroup probeOk (pre.foldl (scanGroup probeOk) init) g) := by
    unfold performSmartScanSelect
    rw [List.foldl_append, List.foldl_cons]
  have hpostdisj : ∀ x ∈ itemIds g, ∀ g' ∈ post, x ∉ itemIds g' := by
    have h1 := (List.pairwise_append.mp hdisj).2.1
    have h2 := (List.pairwise_cons.mp h1).1
    intro x hx g' hg'
    exact h2 g' hg' x hx
  have hframe : ∀ x ∈ itemIds g,
      (x ∈ performSmartScanSelect probeOk (pre ++ g :: post) init ↔
        x ∈ scanGroup probeOk (pre.foldl (scanGroup probeOk) init) g) := by
    intro x hx
    rw [hfold]
    exact foldl_scanGroup_frame probeOk post _ x (fun g' hg' => hpostdisj x hx g' hg')
  have hpreNodup : (pre.foldl (scanGroup probeOk) init).Nodup :=
    nodup_foldl_scanGroup probeOk pre init hinit
  constructor
  · intro hp it hit
    rw [hframe _ (List.mem_map_of_mem _ hit)]
    exact scanGroup_dead probeOk _ g hp it hit
  · intro hp hdates hkeys hne
    cases hs : jsSortOnInt smartCmp g.items with
    | nil =>
        exfalso
        have := jsSortOnInt_perm smartCmp g.items
        rw [hs] at this
        exact hne (List.nil_perm.mp this)
    | cons best rest =>
        have hperm : List.Perm (best :: rest) g.items := by
          rw [← hs]; exact jsSortOnInt_perm smartCmp g.items
        have hbestmem : best ∈ g.items := hperm.mem_iff.mp (List.mem_cons_self best rest)
        have hitemsNodup : g.items.Nodup := by
          refine hkeys.imp ?_
          intro a b hab he
          exact hab (he ▸ ⟨rfl, rfl⟩)
        have hsortNodup : (best :: rest).Nodup := (hperm.nodup_iff).mpr hitemsNodup
        have hbestrest : best ∉ rest := (List.nodup_cons.mp hsortNodup).1
        have hsorted : (best :: rest).Pairwise (fun a b => smartCmp a b ≤ 0) := by
          rw [← hs]
          unfold jsSortOnInt
          refine pairwise_insertionSort_on _ g.items ?_ ?_
          · intro a ha b hb
            rw [smartCmp_le_iff a b (hdates a ha) (hdates b hb),
              smartCmp_le_iff b a (hdates b hb) (hdates a ha)]
            omega
          · intro a ha b hb c hc
            rw [smartCmp_le_iff a b (hdates a ha) (hdates b hb),
              smartCmp_le_iff b c (hdates b hb) (hdates c hc),
              smartCmp_le_iff a c (hdates a ha) (hdates c hc)]
            omega
        have hbestle : ∀ it ∈ rest, smartCmp best it ≤ 0 :=
          (List.pairwise_cons.mp hsorted).1
        have hkeyneq : ∀ a ∈ g.items, ∀ b ∈ g.items, a ≠ b →
            ¬(jsSplitCount '/' a.path = jsSplitCount '/' b.path ∧
              (addDateNumVal a.bookmark).getD 0 = (addDateNumVal b.bookmark).getD 0) := by
          have hsymm : Symmetric (fun a b : DupItem =>
              ¬(jsSplitCount '/' a.path = jsSplitCount '/' b.path ∧
                (addDateNumVal a.bookmark).getD 0 = (addDateNumVal b.bookmark).getD 0)) := by
            intro a b hab hc
            exact hab ⟨hc.1.symm, hc.2.symm⟩
          exact fun a ha b hb hne' => hkeys.forall hsymm ha hb hne'
        have hstrict : ∀ it ∈ g.items, it ≠ best →
            (jsSplitCount '/' best.path < jsSplitCount '/' it.path ∨
              (jsSplitCount '/' best.path = jsSplitCount '/' it.path ∧
                (addDateNumVal it.bookmark).getD 0 <
                  (addDateNumVal best.bookmark).getD 0)) := by
          intro it hit hitne
          have hinrest : it ∈ rest := by
            rcases List.mem_cons.mp (hperm.mem_iff.mpr hit) with rfl | h
            · exact absurd rfl hitne
            · exact h
          have hle := hbestle it hinrest
          rw [smartCmp_le_iff best it (hdates best hbestmem) (hdates it hit)] at hle
          have hne2 := hkeyneq best hbestmem it hit (fun he => hitne (he ▸ rfl))
          rcases hle with h | ⟨h1, h2⟩
          · left; exact_mod_cast h
          · right
            refine ⟨by exact_mod_cast h1, ?_⟩
            rcases lt_or_eq_of_le h2 with h3 | h3
            · exact h3
            · exact absurd ⟨by exact_mod_cast h1, h3.symm⟩ hne2
        have hgact := scanGroup_alive probeOk (pre.foldl (scanGroup probeOk) init) g hp
          best rest hs
        have hidsg : (itemIds g).Nodup := hids g hg
        have hidperm : List.Perm (best.bookmark.id :: rest.map (fun it => it.bookmark.id))
            (itemIds g) := by
          have := hperm.map (fun it => it.bookmark.id)
          simpa [itemIds] using this
        have hidNodup : (best.bookmark.id :: rest.map (fun it => it.bookmark.id)).Nodup :=
          (hidperm.nodup_iff).mpr hidsg
        have hbestidrest : best.bookmark.id ∉ rest.map (fun it => it.bookmark.id) :=
          (List.nodup_cons.mp hidNodup).1
        refine ⟨best, hbestmem, hstrict, ?_, ?_⟩
        · rw [hframe _ (List.mem_map_of_mem _ hbestmem), hgact, mem_foldl_jsSetAdd]
          rintro (hin | hin)
          · unfold jsSetDelete at hin
            exact ((hpreNodup.mem_erase_iff).mp hin).1 rfl
          · exact hbestidrest hin
        · intro it hit hitid
          have hinrest : it ∈ rest := by
            rcases List.mem_cons.mp (hperm.mem_iff.mpr hit) with rfl | h
            · exact absurd rfl hitid
            · exact h
          rw [hframe _ (List.mem_map_of_mem _ hit), hgact, mem_foldl_jsSetAdd]
          exact Or.inr (List.mem_map_of_mem _ hinrest)

/-- C5 counterexample: one reachable duplicate group; candidate A sits at
the root (breadcrumb "", 0 ancestor segments by the spec's count) with
addedAt 100, candidate B one folder deep (breadcrumb "Work", 1 segment)
with addedAt 200.  The claim's ranking keeps A; the scan instead selects
exactly A for removal (keeping B), because `split('/')` gives length 1 for
BOTH "" and "Work", so the path rank ties and the newer timestamp wins. -/
theorem performSmartScan_counterexample :
    performSmartScanSelect (fun _ => true)
      [⟨"u", [⟨mkBm "A" "u" (some "100"), ""⟩, ⟨mkBm "B" "u" (some "200"), "Work"⟩]⟩]
      [] = ["A"] ∧
    specAncestorSegments "" = 0 ∧ specAncestorSegments "Work" = 1 := by decide

/-- Witness for C5: a group whose two candidates sit at breadcrumbs "Work"
(1 split-segment, addedAt 100) and "Work/Sub" (2 split-segments, addedAt
200): the scan keeps the shallower candidate A and selects B. -/
theorem performSmartScan_spec_witness :
    ∃ best ∈ ([⟨mkBm "A" "u" (some "100"), "Work"⟩,
        ⟨mkBm "B" "u" (some "200"), "Work/Sub"⟩] : List DupItem),
      (∀ it ∈ ([⟨mkBm "A" "u" (some "100"), "Work"⟩,
          ⟨mkBm "B" "u" (some "200"), "Work/Sub"⟩] : List DupItem), it ≠ best →
        (jsSplitCount '/' best.path < jsSplitCount '/' it.path ∨
          (jsSplitCount '/' best.path = jsSplitCount '/' it.path ∧
            (addDateNumVal it.bookmark).getD 0 < (addDateNumVal best.bookmark).getD 0))) ∧
      best.bookmark.id ∉ performSmartScanSelect (fun _ => true)
        [⟨"u", [⟨mkBm "A" "u" (some "100"), "Work"⟩,
          ⟨mkBm "B" "u" (some "200"), "Work/Sub"⟩]⟩] [] ∧
      (∀ it ∈ ([⟨mkBm "A" "u" (some "100"), "Work"⟩,
          ⟨mkBm "B" "u" (some "200"), "Work/Sub"⟩] : List DupItem),
        it.bookmark.id ≠ best.bookmark.id →
        it.bookmark.id ∈ performSmartScanSelect (fun _ => true)
          [⟨"u", [⟨mkBm "A" "u" (some "100"), "Work"⟩,
            ⟨mkBm "B" "u" (some "200"), "Work/Sub"⟩]⟩] []) := by
  have h := performSmartScan_spec (fun _ => true)
    [⟨"u", [⟨mkBm "A" "u" (some "100"), "Work"⟩,
      ⟨mkBm "B" "u" (some "200"), "Work/Sub"⟩]⟩] []
    List.nodup_nil
    (List.pairwise_singleton _ _)
    (by intro g hg; rcases List.mem_singleton.mp hg with rfl; decide)
    ⟨"u", [⟨mkBm "A" "u" (some "100"), "Work"⟩,
      ⟨mkBm "B" "u" (some "200"), "Work/Sub"⟩]⟩
    (List.mem_singleton.mpr rfl)
  exact h.2 rfl (by decide) (by decide) (by decide)

/-- Every batch outcome issues at least one oracle request (even an
exhausted retry loop made its three attempts). -/
theorem oracleCall_mem_batchCalls (o : BatchOutcome) : Eff.oracleCall ∈ batchCalls o := by
  cases o with
  | ok k items => exact List.mem_map.mpr ⟨0, List.mem_range.mpr (Nat.succ_pos _), rfl⟩
  | quota k => exact List.mem_map.mpr ⟨0, List.mem_range.mpr (Nat.succ_pos _), rfl⟩
  | exhausted => exact List.mem_map.mpr ⟨0, List.mem_range.mpr (by omega), rfl⟩

/-- Every AICHECK batch outcome issues at least one oracle request. -/
theorem oracleCall_mem_auditBatchCalls (o : AuditBatchOutcome) :
    Eff.oracleCall ∈ auditBatchCalls o := by
  cases o with
  | ok k results => exact List.mem_map.mpr ⟨0, List.mem_range.mpr (Nat.succ_pos _), rfl⟩
  | quota k => exact List.mem_map.mpr ⟨0, List.mem_range.mpr (Nat.succ_pos _), rfl⟩
  | exhausted => exact List.mem_map.mpr ⟨0, List.mem_range.mpr (by omega), rfl⟩

/-- Every chunk the slicing loop emits is non-empty (it only flushes the
accumulator when it holds something). -/
theorem mem_chunksOfGo_ne_nil (k : Nat) :
    ∀ (l cur : List α) (cnt : Nat) (c : List α), c ∈ chunksOfGo k cur cnt l → c ≠ []
  | [], cur, cnt, c, h => by
      match cur with
      | [] => exact absurd h (by simp [chunksOfGo])
      | y :: ys =>
          have : c = (y :: ys).reverse := by simpa [chunksOfGo] using h
          subst this
          simp
  | x :: xs, cur, cnt, c, h => by
      unfold chunksOfGo at h
      by_cases hk : cnt + 1 = k
      · rw [if_pos hk] at h
        rcases List.mem_cons.mp h with rfl | h'
        · simp
        · exact mem_chunksOfGo_ne_nil k xs [] 0 c h'
      · rw [if_neg hk] at h
        exact mem_chunksOfGo_ne_nil k xs (x :: cur) (cnt + 1) c h

/-- A non-empty accumulator guarantees at least one emitted chunk. -/
theorem chunksOfGo_ne_nil (k : Nat) :
    ∀ (l cur : List α) (cnt : Nat), cur ≠ [] → chunksOfGo k cur cnt l ≠ []
  | [], cur, cnt, h => by
      have : ¬ cur.isEmpty := by simpa [List.isEmpty_iff] using h
      simp [chunksOfGo, this]
  | x :: xs, cur, cnt, h => by
      unfold chunksOfGo
      by_cases hk : cnt + 1 = k
      · rw [if_pos hk]; simp
      · rw [if_neg hk]
        exact chunksOfGo_ne_nil k xs (x :: cur) (cnt + 1) (by simp)

/-- Chunking a non-empty list yields at least one chunk. -/
theorem chunksOf_ne_nil (k : Nat) (l : List α) (h : l ≠ []) : chunksOf k l ≠ [] := by
  obtain ⟨x, xs, rfl⟩ := List.exists_cons_of_ne_nil h
  show chunksOfGo k [] 0 (x :: xs) ≠ []
  unfold chunksOfGo
  by_cases hk : 0 + 1 = k
  · rw [if_pos hk]; simp
  · rw [if_neg hk]
    exact chunksOfGo_ne_nil k xs [x] 1 (by simp)

/-- The first concurrency group of `categorizeBookmarks` always reaches the
oracle: its first batch's requests are recorded whatever its outcome, and
whether or not a sibling batch of the group throws. -/
theorem oracleCall_mem_categorizeGroups (outcome : Nat → BatchOutcome)
    (j : Nat) (g : List Nat) (rest : List (List Nat)) :
    Eff.oracleCall ∈ (categorizeGroups outcome ((j :: g) :: rest)).1 := by
  have hcall : Eff.oracleCall ∈ ((j :: g).map (fun i => batchCalls (outcome i))).flatten := by
    refine List.mem_flatten.mpr ⟨batchCalls (outcome j), ?_, oracleCall_mem_batchCalls _⟩
    exact List.mem_map.mpr ⟨j, List.mem_cons_self _ _, rfl⟩
  simp only [categorizeGroups]
  split
  · exact hcall
  · exact List.mem_append_left _ hcall

/-- The categorization service issues at least one oracle request whenever
its input is non-empty. -/
theorem oracleCall_mem_categorizeRun (bms : List Bookmark) (outcome : Nat → BatchOutcome)
    (h : bms ≠ []) : Eff.oracleCall ∈ (categorizeRun bms outcome).1 := by
  have h20 : chunksOf 20 bms ≠ [] := chunksOf_ne_nil 20 bms h
  have hrange : List.range (chunksOf 20 bms).length ≠ [] := by
    intro hc
    exact h20 (List.length_eq_zero.mp (List.range_eq_nil.mp hc))
  have h5 : chunksOf 5 (List.range (chunksOf 20 bms).length) ≠ [] :=
    chunksOf_ne_nil 5 _ hrange
  obtain ⟨g, rest, hgr⟩ := List.exists_cons_of_ne_nil h5
  have hgne : g ≠ [] := by
    refine mem_chunksOfGo_ne_nil 5 (List.range (chunksOf 20 bms).length) [] 0 g ?_
    show g ∈ chunksOf 5 (List.range (chunksOf 20 bms).length)
    rw [hgr]
    exact List.mem_cons_self _ _
  obtain ⟨j, g2, rfl⟩ := List.exists_cons_of_ne_nil hgne
  show Eff.oracleCall ∈
    (categorizeGroups outcome (chunksOf 5 (List.range (chunksOf 20 bms).length))).1
  rw [hgr]
  exact oracleCall_mem_categorizeGroups outcome j g2 rest

/-- The sequential AICHECK loop reaches the oracle on its first chunk
whatever that chunk's outcome. -/
theorem oracleCall_mem_auditChunks (aOutcome : Nat → AuditBatchOutcome)
    (idx : Nat) (chunk : List Bookmark) (rest : List (List Bookmark)) :
    Eff.oracleCall ∈ (auditChunks aOutcome idx (chunk :: rest)).1 := by
  cases h : aOutcome idx with
  | quota k =>
      simp only [auditChunks, h]
      exact oracleCall_mem_auditBatchCalls (.quota k)
  | ok k results =>
      simp only [auditChunks, h]
      exact List.mem_append_left _ (oracleCall_mem_auditBatchCalls (.ok k results))
  | exhausted =>
      simp only [auditChunks, h]
      exact List.mem_append_left _ (oracleCall_mem_auditBatchCalls .exhausted)

/-- C2 counterexample: with the quota flag SET and bookmarks loaded, both
the health audit and the fix-it-all proposal still reach the external
oracle (here with one bookmark whose probe succeeds and whose single batch
returns an empty result list on its first attempt): the flag guards
neither handler. -/
theorem quotaFlag_counterexample :
    (⟨some (BNodes.ofList [.bm (mkBm "b1" "https://a.com" none)]), true⟩ :
        CtxState).isAIQuotaExceeded = true ∧
    Eff.oracleCall ∈ runBookmarkHealthAuditTrace
      ⟨some (BNodes.ofList [.bm (mkBm "b1" "https://a.com" none)]), true⟩
      (fun _ => true) (fun _ => .ok 0 []) ∧
    Eff.oracleCall ∈ generateFixItAllTrace
      ⟨some (BNodes.ofList [.bm (mkBm "b1" "https://a.com" none)]), true⟩
      (fun _ => true) (fun _ => .ok 0 []) := by decide

/-- C2 (amended): the process-wide quota flag suppresses ONLY
auto-categorize — `handleAutoCategorize` returns with no effect while the
flag is set — whereas `runBookmarkHealthAudit` and
`generateFixItAllProposal` never consult the flag: whenever bookmarks are
loaded (and, respectively, some bookmark survives the precheck / survives
duplicate elimination and the dead-link sweep), each still performs an
oracle call, flag set or not, whatever the per-batch outcomes. -/
theorem quotaFlag_gates_only_autoCategorize :
    (∀ (s : CtxState) (outcome : Nat → BatchOutcome),
        s.isAIQuotaExceeded = true → handleAutoCategorizeTrace s outcome = []) ∧
    (∀ (s : CtxState) (nodes : BNodes) (probeOk : String → Bool)
        (aOutcome : Nat → AuditBatchOutcome),
        s.bookmarks = some nodes →
        (flattenBookmarks nodes).filter (fun b => probeOk b.url) ≠ [] →
        Eff.oracleCall ∈ runBookmarkHealthAuditTrace s probeOk aOutcome) ∧
    (∀ (s : CtxState) (nodes : BNodes) (probeOk : String → Bool)
        (outcome : Nat → BatchOutcome),
        s.bookmarks = some nodes →
        fixItAllGoodBookmarks (flattenBookmarks nodes) probeOk ≠ [] →
        Eff.oracleCall ∈ generateFixItAllTrace s probeOk outcome) := by
  refine ⟨?_, ?_, ?_⟩
  · intro s outcome hflag
    cases hb : s.bookmarks with
    | none => simp [handleAutoCategorizeTrace, hb]
    | some nodes => simp [handleAutoCategorizeTrace, hb, hflag]
  · intro s nodes probeOk aOutcome hb hsurv
    simp only [runBookmarkHealthAuditTrace, hb]
    refine List.mem_cons_of_mem _ (List.mem_append_left _ ?_)
    show Eff.oracleCall ∈
      (flattenBookmarks nodes).map (fun b => Eff.probe b.url) ++
        (auditChunks aOutcome 0
          (chunksOf 25 ((flattenBookmarks nodes).filter (fun b => probeOk b.url)))).1
    refine List.mem_append_right _ ?_
    have h25 : chunksOf 25 ((flattenBookmarks nodes).filter (fun b => probeOk b.url)) ≠ [] :=
      chunksOf_ne_nil 25 _ hsurv
    obtain ⟨chunk, rest, hcr⟩ := List.exists_cons_of_ne_nil h25
    rw [hcr]
    exact oracleCall_mem_auditChunks aOutcome 0 chunk rest
  · intro s nodes probeOk outcome hb hgood
    simp only [generateFixItAllTrace, hb]
    refine List.mem_cons_of_mem _ (List.mem_cons_of_mem _ (List.mem_cons_of_mem _ ?_))
    refine List.mem_append_right _ ?_
    refine List.mem_cons_of_mem _ (List.mem_append_left _ ?_)
    exact oracleCall_mem_categorizeRun _ outcome hgood

/-- Witness for C2: on a one-bookmark state with the flag set,
auto-categorize produces no effects, while the audit and fix-it-all still
call the oracle (here each first batch throws the quota error on its first
attempt). -/
theorem quotaFlag_gates_only_autoCategorize_witness :
    handleAutoCategorizeTrace
      ⟨some (BNodes.ofList [.bm (mkBm "b1" "https://a.com" none)]), true⟩
      (fun _ => .exhausted) = [] ∧
    Eff.oracleCall ∈ runBookmarkHealthAuditTrace
      ⟨some (BNodes.ofList [.bm (mkBm "b1" "https://a.com" none)]), true⟩
      (fun _ => true) (fun _ => .quota 0) ∧
    Eff.oracleCall ∈ generateFixItAllTrace
      ⟨some (BNodes.ofList [.bm (mkBm "b1" "https://a.com" none)]), true⟩
      (fun _ => true) (fun _ => .quota 0) := by
  refine ⟨?_, ?_, ?_⟩
  · exact quotaFlag_gates_only_autoCategorize.1 _ _ rfl
  · exact quotaFlag_gates_only_autoCategorize.2.1 _ _ _ _ rfl (by decide)
  · exact quotaFlag_gates_only_autoCategorize.2.2 _ _ _ _ rfl (by decide)

/-- Flattening distributes over sequence append. -/
theorem flatten_append (m : BNodes) :
    ∀ l : BNodes, flattenBookmarks (BNodes.append l m) =
      flattenBookmarks l ++ flattenBookmarks m := by
  refine bnodes_ind _ rfl ?_ ?_
  · intro b rest ih
    simp [BNodes.append, flattenBookmarks, ih]
  · intro f ch rest ih1 ih2
    simp [BNodes.append, flattenBookmarks, ih2]

/-- Flattening a pushed node appends that node's bookmarks. -/
theorem flatten_push (l : BNodes) (n : BNode) :
    flattenBookmarks (l.push n) =
      flattenBookmarks l ++ flattenBookmarks (.cons n .nil) := by
  unfold BNodes.push
  exact flatten_append _ l

/-- Dropping the last element and pushing it back is the identity. -/
theorem dropLast_push_getLast :
    ∀ (l : BNodes) (n : BNode), l.getLast? = some n → l.dropLast.push n = l
  | .nil, n, h => by cases h
  | .cons x .nil, n, h => by cases h; rfl
  | .cons x (.cons y ys), n, h => by
      have hrec := dropLast_push_getLast (.cons y ys) n h
      show BNodes.cons x ((BNodes.cons y ys).dropLast.push n) = _
      rw [hrec]

/-- C7 counterexample: parsing an anchor entry carrying no ADD_DATE at
clock 1700000000000 ms produces a bookmark whose `addDate` is
`some "1700000000"` — the parse-time clock in epoch seconds — not an
absent timestamp. -/
theorem parser_addDate_counterexample :
    (flattenBookmarks
        (parseBookmarks 1700000000000 "<DT><A HREF=\"https://a.com\">A</A>").1).map
      (fun b => b.addDate) = [some "1700000000"] := by decide

/-- C7 (amended): an entry (anchor or folder) with no ADD_DATE attribute
is stamped with the CURRENT clock at parse — `String(Math.floor(Date.now()
/ 1000))` — never left absent. -/
theorem parser_addDate_defaults_to_now (nowSec : Int) (freshId : String) (tl : List Char) :
    (findAttr ("add_date=\"".toList) tl = none →
      ∀ b : Bookmark, parseAnchorLine nowSec freshId tl = some b →
        b.addDate = some (toString nowSec)) ∧
    (findAttr ("add_date=\"".toList) tl = none →
      ∀ (f : FolderInfo) (ch : BNodes), parseFolderLine nowSec freshId tl = .folder f ch →
        f.addDate = some (toString nowSec)) := by
  constructor
  · intro hattr b hsome
    simp only [parseAnchorLine, hattr] at hsome
    split at hsome
    · cases hsome
    · cases hsome
      rfl
  · intro hattr f ch hfold
    simp only [parseFolderLine, hattr] at hfold
    cases hfold
    rfl

/-- Witness for C7: the anchor line `<DT><A HREF="https://a.com">A</A>`
(no ADD_DATE) at clock second 1700000000. -/
theorem parser_addDate_defaults_to_now_witness :
    (⟨"bookmark-0", "A", "https://a.com", some "1700000000", some "", none⟩ :
      Bookmark).addDate = some (toString (1700000000 : Int)) :=
  (parser_addDate_defaults_to_now 1700000000 "bookmark-0"
    ("<DT><A HREF=\"https://a.com\">A</A>".toList)).1 (by decide) _ (by decide)

/-- One closing step of the parser stack, under `flattenFrames`. -/
theorem flattenFrames_cons (top p : PFrame) (below : List PFrame) :
    flattenFrames top (p :: below) =
      flattenFrames ⟨p.info, p.children.push (.folder top.info top.children)⟩ below := rfl

/-- Replacing the open frame's children with a version whose flattening
has extra bookmarks appended appends them to the whole state's
flattening. -/
theorem flattenFrames_congr_extra :
    ∀ (stk : List PFrame) (i : FolderInfo) (b b' : BNodes) (extra : List Bookmark),
      flattenBookmarks b' = flattenBookmarks b ++ extra →
      flattenFrames ⟨i, b'⟩ stk = flattenFrames ⟨i, b⟩ stk ++ extra := by
  intro stk
  induction stk with
  | nil =>
      intro i b b' extra h
      simpa [flattenFrames, closeAll] using h
  | cons p below ih =>
      intro i b b' extra h
      rw [flattenFrames_cons, flattenFrames_cons]
      refine ih p.info _ _ extra ?_
      rw [flatten_push, flatten_push]
      simp only [flattenBookmarks]
      rw [h]
      simp [List.append_assoc]

/-- Annotating folder stats does not change the flattened bookmarks. -/
theorem flatten_addFolderStats :
    ∀ l : BNodes, flattenBookmarks (addFolderStats l) = flattenBookmarks l := by
  refine bnodes_ind _ rfl ?_ ?_
  · intro b rest ih
    simp [addFolderStats, flattenBookmarks, ih]
  · intro f ch rest ih1 ih2
    simp [addFolderStats, flattenBookmarks, ih1, ih2]

/-- A bookmark the parser actually constructs passed the URL guard. -/
theorem parseAnchorLine_accepted (nowSec : Int) (freshId : String) (tl : List Char)
    (b : Bookmark) (h : parseAnchorLine nowSec freshId tl = some b) :
    acceptedUrl b.url = true := by
  simp only [parseAnchorLine] at h
  split at h
  · cases h
  · cases h
    simp_all

/-- One parser line step appends zero or more (here: at most one) accepted
bookmarks to the state's flattening and counts exactly them. -/
theorem stepLine_flatten (nowSec : Int) (st : PState) (line : List Char) :
    ∃ extra : List Bookmark,
      flattenFrames (stepLine nowSec st line).top (stepLine nowSec st line).stk =
        flattenFrames st.top st.stk ++ extra ∧
      (stepLine nowSec st line).bookmarkCount = st.bookmarkCount + extra.length ∧
      ∀ b ∈ extra, acceptedUrl b.url = true := by
  unfold stepLine
  by_cases hdl : startsWithCI ("<dl>".toList) (jsTrimList line) = true
  · rw [if_pos hdl]
    cases hl : st.top.children.getLast? with
    | none => exact ⟨[], by simp [hl], by simp [hl], by simp⟩
    | some n =>
        cases n with
        | bm b => exact ⟨[], by simp [hl], by simp [hl], by simp⟩
        | folder f ch =>
            refine ⟨[], ?_, by simp [hl], by simp⟩
            simp only [hl]
            rw [List.append_nil, flattenFrames_cons, dropLast_push_getLast _ _ hl]
  · rw [if_neg hdl]
    by_cases hdl2 : startsWithCI ("</dl>".toList) (jsTrimList line) = true
    · rw [if_pos hdl2]
      cases hstk : st.stk with
      | nil => exact ⟨[], by simp [hstk], by simp [hstk], by simp⟩
      | cons parent below =>
          refine ⟨[], ?_, by simp [hstk], by simp⟩
          simp only [hstk]
          rw [List.append_nil]
          rw [show st.stk = parent :: below from hstk] at *
          rfl
    · rw [if_neg hdl2]
      by_cases hh3 : startsWithCI ("<dt><h3".toList) (jsTrimList line) = true
      · rw [if_pos hh3]
        refine ⟨[], ?_, by simp, by simp⟩
        rw [List.append_nil]
        show flattenFrames ⟨st.top.info, _⟩ st.stk = flattenFrames ⟨st.top.info, st.top.children⟩ st.stk
        refine flattenFrames_congr_extra st.stk st.top.info _ _ [] ?_ |>.trans (List.append_nil _)
        rw [flatten_push]
        simp [parseFolderLine, flattenBookmarks]
      · rw [if_neg hh3]
        by_cases ha : startsWithCI ("<dt><a".toList) (jsTrimList line) = true
        · rw [if_pos ha]
          cases hp : parseAnchorLine nowSec ("bookmark-" ++ toString st.nextId)
              (jsTrimList line) with
          | none => exact ⟨[], by simp [hp], by simp [hp], by simp⟩
          | some b =>
              refine ⟨[b], ?_, by simp [hp], ?_⟩
              · simp only [hp]
                show flattenFrames ⟨st.top.info, _⟩ st.stk =
                  flattenFrames ⟨st.top.info, st.top.children⟩ st.stk ++ [b]
                refine flattenFrames_congr_extra st.stk st.top.info _ _ [b] ?_
                rw [flatten_push]
                simp [flattenBookmarks]
              · intro b' hb'
                rcases List.mem_singleton.mp hb' with rfl
                exact parseAnchorLine_accepted _ _ _ _ hp
        · rw [if_neg ha]
          exact ⟨[], by simp, by simp, by simp⟩

/-- The line-loop invariant: every bookmark anywhere in the parser state
passed the URL guard, and `stats.bookmarkCount` counts exactly the
bookmarks in the state. -/
theorem foldl_stepLine_invariant (nowSec : Int) :
    ∀ (lines : List (List Char)) (st : PState),
      (∀ b ∈ flattenFrames st.top st.stk, acceptedUrl b.url = true) →
      st.bookmarkCount = (flattenFrames st.top st.stk).length →
      (∀ b ∈ flattenFrames (lines.foldl (stepLine nowSec) st).top
          (lines.foldl (stepLine nowSec) st).stk, acceptedUrl b.url = true) ∧
      (lines.foldl (stepLine nowSec) st).bookmarkCount =
        (flattenFrames (lines.foldl (stepLine nowSec) st).top
          (lines.foldl (stepLine nowSec) st).stk).length := by
  intro lines
  induction lines with
  | nil => intro st h1 h2; exact ⟨h1, h2⟩
  | cons line rest ih =>
      intro st h1 h2
      simp only [List.foldl_cons]
      obtain ⟨extra, hflat, hcount, hacc⟩ := stepLine_flatten nowSec st line
      refine ih (stepLine nowSec st line) ?_ ?_
      · intro b hb
        rw [hflat] at hb
        rcases List.mem_append.mp hb with hb | hb
        · exact h1 b hb
        · exact hacc b hb
      · rw [hflat, hcount, h2, List.length_append]

/-- C8 (amended): for every import input, every bookmark node the parser
creates has a url that passed the guard — non-empty and NOT starting
(after trimming) with the lowercase prefix "javascript:" — and the
counted `bookmarkCount` equals the number of bookmark nodes in the tree:
dropped entries contribute nothing to the tree or the stats.  (The guard
is case-sensitive; other casings of the scheme are NOT dropped.) -/
theorem parseBookmarks_rejects (nowMs : Int) (html : String) :
    (∀ b ∈ flattenBookmarks (parseBookmarks nowMs html).1, acceptedUrl b.url = true) ∧
    (parseBookmarks nowMs html).2.bookmarkCount =
      (flattenBookmarks (parseBookmarks nowMs html).1).length := by
  have hstart1 : ∀ b ∈ flattenFrames (⟨⟨rootInfo, .nil⟩, [], 0, 0, 0⟩ : PState).top
      (⟨⟨rootInfo, .nil⟩, [], 0, 0, 0⟩ : PState).stk, acceptedUrl b.url = true := by
    intro b hb
    simp [flattenFrames, closeAll, flattenBookmarks] at hb
  have hstart2 : (⟨⟨rootInfo, .nil⟩, [], 0, 0, 0⟩ : PState).bookmarkCount =
      (flattenFrames (⟨⟨rootInfo, .nil⟩, [], 0, 0, 0⟩ : PState).top
        (⟨⟨rootInfo, .nil⟩, [], 0, 0, 0⟩ : PState).stk).length := by
    simp [flattenFrames, closeAll, flattenBookmarks]
  obtain ⟨hinv1, hinv2⟩ := foldl_stepLine_invariant (nowMs / 1000) (splitLines html.toList)
    ⟨⟨rootInfo, .nil⟩, [], 0, 0, 0⟩ hstart1 hstart2
  have hunfold : (parseBookmarks nowMs html).1 =
      addFolderStats (closeAll
        ((splitLines html.toList).foldl (stepLine (nowMs / 1000))
          ⟨⟨rootInfo, .nil⟩, [], 0, 0, 0⟩).top
        ((splitLines html.toList).foldl (stepLine (nowMs / 1000))
          ⟨⟨rootInfo, .nil⟩, [], 0, 0, 0⟩).stk).children := rfl
  have hstats : (parseBookmarks nowMs html).2.bookmarkCount =
      ((splitLines html.toList).foldl (stepLine (nowMs / 1000))
        ⟨⟨rootInfo, .nil⟩, [], 0, 0, 0⟩).bookmarkCount := rfl
  constructor
  · intro b hb
    rw [hunfold, flatten_addFolderStats] at hb
    exact hinv1 b hb
  · rw [hstats, hinv2, hunfold, flatten_addFolderStats]
    rfl

/-- C8 counterexample: the entry `<DT><A HREF="JavaScript:void(0)">X</A>`
uses the javascript scheme in mixed case; the parser nevertheless creates
a bookmark node from it (and counts it), because the guard compares the
prefix case-sensitively against lowercase "javascript:". -/
theorem parseBookmarks_scriptCase_counterexample :
    (flattenBookmarks
        (parseBookmarks 0 "<DT><A HREF=\"JavaScript:void(0)\">X</A>").1).map
      (fun b => b.url) = ["JavaScript:void(0)"] ∧
    (parseBookmarks 0 "<DT><A HREF=\"JavaScript:void(0)\">X</A>").2.bookmarkCount = 1 ∧
    startsWithList ("javascript:".toList)
      ((jsTrim "JavaScript:void(0)").toList.map jsLowerChar) = true := by decide
